import Mathlib

/-!
Verification of the tunnel-platform control plane: a shallow embedding of the
peer-address allocator, the instance lifecycle, and the deletion cascades of
`backend/app.py`, `backend/utils.py` and `models.py`, together with proofs of
the specified invariants.
-/

namespace TunnelPlatform

/-! ### Decimal rendering of naturals

Peer addresses are stored as strings (`assigned_ip` column), built by the
Python f-string `f"{WG_SUBNET_PREFIX}.{next_octet}"`.  To reason about
distinctness of stored addresses we prove that Lean's decimal rendering of
naturals (`Nat.repr`, the meaning of `toString`) is injective. -/

/-- Fuel-free specification of `Nat.toDigits 10`. -/
def digitsSpec (n : Nat) : List Char :=
  if _h : n < 10 then [Nat.digitChar n]
  else digitsSpec (n / 10) ++ [Nat.digitChar (n % 10)]
decreasing_by
  exact Nat.div_lt_self (by omega) (by omega)

theorem digitsSpec_lt {n : Nat} (h : n < 10) : digitsSpec n = [Nat.digitChar n] := by
  rw [digitsSpec]
  simp [h]

theorem digitsSpec_ge {n : Nat} (h : ¬ n < 10) :
    digitsSpec n = digitsSpec (n / 10) ++ [Nat.digitChar (n % 10)] := by
  rw [digitsSpec]
  simp [h]

theorem digitsSpec_ne_nil (n : Nat) : digitsSpec n ≠ [] := by
  by_cases h : n < 10
  · rw [digitsSpec_lt h]
    simp
  · rw [digitsSpec_ge h]
    simp

theorem toDigitsCore_eq_digitsSpec :
    ∀ (f n : Nat) (acc : List Char), n < f →
      Nat.toDigitsCore 10 f n acc = digitsSpec n ++ acc := by
  intro f
  induction f with
  | zero => intro n acc h; omega
  | succ f ih =>
    intro n acc h
    by_cases hn : n < 10
    · have hdiv : n / 10 = 0 := Nat.div_eq_of_lt hn
      have hmod : n % 10 = n := Nat.mod_eq_of_lt hn
      simp [Nat.toDigitsCore, hdiv, hmod, digitsSpec, hn]
    · have hdiv : n / 10 ≠ 0 := by
        have : 10 ≤ n := by omega
        have := Nat.div_pos this (by omega)
        omega
      have hlt : n / 10 < f := by
        have h1 : n / 10 < n := Nat.div_lt_self (by omega) (by omega)
        omega
      rw [show Nat.toDigitsCore 10 (f + 1) n acc
            = Nat.toDigitsCore 10 f (n / 10) (Nat.digitChar (n % 10) :: acc) by
          simp [Nat.toDigitsCore, hdiv]]
      rw [ih (n / 10) _ hlt]
      rw [digitsSpec_ge hn]
      simp

theorem toDigits_eq_digitsSpec (n : Nat) : Nat.toDigits 10 n = digitsSpec n := by
  have := toDigitsCore_eq_digitsSpec (n + 1) n [] (by omega)
  simpa [Nat.toDigits] using this

theorem digitChar_inj_fin : ∀ a b : Fin 10,
    Nat.digitChar a.val = Nat.digitChar b.val → a = b := by
  decide

theorem digitChar_inj {a b : Nat} (ha : a < 10) (hb : b < 10)
    (h : Nat.digitChar a = Nat.digitChar b) : a = b := by
  have := digitChar_inj_fin ⟨a, ha⟩ ⟨b, hb⟩ h
  exact congrArg Fin.val this

theorem digitsSpec_injective : ∀ a b, digitsSpec a = digitsSpec b → a = b := by
  intro a
  induction a using Nat.strong_induction_on with
  | _ a ih =>
    intro b h
    by_cases ha : a < 10 <;> by_cases hb : b < 10
    · rw [digitsSpec_lt ha, digitsSpec_lt hb] at h
      simp only [List.cons.injEq] at h
      exact digitChar_inj ha hb h.1
    · exfalso
      rw [digitsSpec_lt ha, digitsSpec_ge hb] at h
      have hlen := congrArg List.length h
      have hne := digitsSpec_ne_nil (b / 10)
      have h1 : 1 = (digitsSpec (b / 10)).length + 1 := by
        simpa using hlen
      have h0 : (digitsSpec (b / 10)).length ≠ 0 := by
        intro h0
        exact hne (List.length_eq_zero.mp h0)
      omega
    · exfalso
      rw [digitsSpec_ge ha, digitsSpec_lt hb] at h
      have hlen := congrArg List.length h
      have hne := digitsSpec_ne_nil (a / 10)
      have h1 : (digitsSpec (a / 10)).length + 1 = 1 := by
        simpa using hlen
      have h0 : (digitsSpec (a / 10)).length ≠ 0 := by
        intro h0
        exact hne (List.length_eq_zero.mp h0)
      omega
    · rw [digitsSpec_ge ha, digitsSpec_ge hb] at h
      have hparts := List.append_inj' h (by simp)
      have hdiv : a / 10 = b / 10 := by
        apply ih (a / 10) (Nat.div_lt_self (by omega) (by omega))
        exact hparts.1
      have hmod : a % 10 = b % 10 := by
        apply digitChar_inj (Nat.mod_lt _ (by omega)) (Nat.mod_lt _ (by omega))
        have := hparts.2
        simpa using this
      omega

theorem natRepr_injective : ∀ a b : Nat, Nat.repr a = Nat.repr b → a = b := by
  intro a b h
  apply digitsSpec_injective
  rw [← toDigits_eq_digitsSpec, ← toDigits_eq_digitsSpec]
  have hd : (Nat.toDigits 10 a).asString.data = (Nat.toDigits 10 b).asString.data :=
    congrArg String.data h
  simpa [List.asString] using hd

theorem natToString_injective : ∀ a b : Nat, toString a = toString b → a = b :=
  natRepr_injective

/-! ### Data model

Embeds the SQLAlchemy models of `models.py` and the configuration constants of
`backend/app.py` / `backend/utils.py` (environment defaults). -/

/-- Embeds `MAX_INSTANCES_PER_USER = int(os.getenv("MAX_INSTANCES_PER_USER", 3))`. -/
def MAX_INSTANCES_PER_USER : Nat := 3

/-- Embeds the subnet constant of `backend/utils.py` (its source name ends in
an underscore-separated PREFIX word; default value `"10.10.0"`). -/
def WG_SUBNET : String := "10.10.0"

/-- Embeds `WG_PORT = int(os.getenv("WG_PORT", 51820))`. -/
def WG_PORT : Nat := 51820

/-- An HTTP error response (`HTTPException(status_code, detail)`). -/
structure HTTPError where
  status_code : Nat
  detail : String
deriving Repr, DecidableEq

/-- Embeds the `Instance` model (table `instances`). -/
structure Instance where
  id : Nat
  user_id : Nat
  aws_instance_id : Option String
  region : String
  public_ip : Option String
  state : String
  instance_type : String
deriving Repr, DecidableEq

/-- Embeds the `Peer` model (table `peers`); the key columns for the allocator
are `instance_id` and `assigned_ip`. -/
structure Peer where
  id : Nat
  instance_id : Nat
  name : String
  device_type : String
  assigned_ip : String
deriving Repr, DecidableEq

/-- Embeds the `AllocState` model (table `alloc_state`): one ledger row per
instance, `last_octet` is the allocation cursor. -/
structure AllocState where
  instance_id : Nat
  last_octet : Nat
deriving Repr, DecidableEq

/-- The database state, together with the autoincrement counters and the
queue of not-yet-run background launch tasks (`BackgroundTasks.add_task`
enqueues one task per created instance; each runs exactly once). -/
structure DB where
  instances : List Instance
  peers : List Peer
  alloc_states : List AllocState
  next_instance_id : Nat
  next_peer_id : Nat
  pending_launches : List Nat
deriving Repr, DecidableEq

/-! ### Queries -/

/-- Embeds `db.query(Instance).filter(Instance.id == iid, Instance.user_id == uid).first()`. -/
def findInstanceOwned (db : DB) (iid uid : Nat) : Option Instance :=
  db.instances.find? (fun i => i.id == iid && i.user_id == uid)

/-- Embeds `db.query(Instance).filter(Instance.id == iid).first()`. -/
def findInstanceById (db : DB) (iid : Nat) : Option Instance :=
  db.instances.find? (fun i => i.id == iid)

/-- Embeds `db.query(AllocState).filter(AllocState.instance_id == iid).first()`. -/
def findAlloc (db : DB) (iid : Nat) : Option AllocState :=
  db.alloc_states.find? (fun a => a.instance_id == iid)

/-- Embeds `db.query(Peer).join(Instance).filter(Peer.id == pid, Instance.user_id == uid).first()`:
a peer with the given id whose owning instance belongs to `uid`. -/
def findPeerOwned (db : DB) (pid uid : Nat) : Option Peer :=
  db.peers.find? (fun p =>
    p.id == pid &&
      (db.instances.find? (fun i => i.id == p.instance_id && i.user_id == uid)).isSome)

/-! ### Errors raised by the endpoints -/

def instanceNotFound : HTTPError := ⟨404, "Instance not found"⟩

def peerNotFound : HTTPError := ⟨404, "Peer not found"⟩

def notReadyError : HTTPError := ⟨400, "Instance not ready. Wait for it to be running."⟩

def poolExhaustedError : HTTPError := ⟨400, "IP pool exhausted"⟩

def maxInstancesError : HTTPError :=
  ⟨400, "Maximum " ++ toString MAX_INSTANCES_PER_USER ++ " instances allowed"⟩

/-! ### Operations (the API endpoints of `backend/app.py`) -/

def countInstancesOf (db : DB) (uid : Nat) : Nat :=
  (db.instances.filter (fun i => i.user_id == uid)).length

/-- Embeds `create_instance` (app.py): reject when the account already owns
`MAX_INSTANCES_PER_USER` instances, otherwise insert a new instance in state
`"launching"` and enqueue its background launch task. -/
def create_instance (db : DB) (uid : Nat) (region instance_type : String) :
    DB × Except HTTPError Instance :=
  if MAX_INSTANCES_PER_USER ≤ countInstancesOf db uid then
    (db, .error maxInstancesError)
  else
    let inst : Instance :=
      { id := db.next_instance_id, user_id := uid, aws_instance_id := none,
        region := region, public_ip := none, state := "launching",
        instance_type := instance_type }
    ({ db with instances := db.instances ++ [inst],
               next_instance_id := db.next_instance_id + 1,
               pending_launches := db.pending_launches ++ [inst.id] },
     .ok inst)

/-- Embeds the success path of `launch_instance_task` / `launch_instance_async`
(utils.py): the background task runs once per created instance (membership in
`pending_launches`); it re-queries the instance by id and, if still present,
stores the provider handle and public address, sets `state = "running"` and
inserts the ledger row `AllocState(instance_id=instance.id, last_octet=2)`. -/
def launch_success (db : DB) (iid : Nat) (aws_id public_ip : String) : DB :=
  if db.pending_launches.contains iid then
    let pending := db.pending_launches.filter (fun j => j != iid)
    match findInstanceById db iid with
    | none => { db with pending_launches := pending }
    | some _ =>
      { db with
        pending_launches := pending,
        instances := db.instances.map (fun i =>
          if i.id == iid then
            { i with aws_instance_id := some aws_id, public_ip := some public_ip,
                     state := "running" }
          else i),
        alloc_states := db.alloc_states ++ [⟨iid, 2⟩] }
  else db

/-- Embeds the failure path of `launch_instance_task` / `launch_instance_async`:
on any exception the instance, if still present, is moved to state `"failed"`. -/
def launch_fail (db : DB) (iid : Nat) : DB :=
  if db.pending_launches.contains iid then
    let pending := db.pending_launches.filter (fun j => j != iid)
    match findInstanceById db iid with
    | none => { db with pending_launches := pending }
    | some _ =>
      { db with
        pending_launches := pending,
        instances := db.instances.map (fun i =>
          if i.id == iid then { i with state := "failed" } else i) }
  else db

/-- The address string built by `f"{...SUBNET...}.{next_octet}"` in `create_peer`. -/
def mkPeerIp (octet : Nat) : String := WG_SUBNET ++ "." ++ toString octet

/-- Embeds `create_peer` (app.py): ownership check (404), readiness gate
(400 when `state != "running"`), lazy ledger creation (`last_octet = 2`,
committed immediately), pool-exhaustion check (`next_octet >= 254`), and the
atomic commit of the new peer together with the advanced cursor. -/
def create_peer (db : DB) (uid iid : Nat) (name device_type : String) :
    DB × Except HTTPError Peer :=
  match findInstanceOwned db iid uid with
  | none => (db, .error instanceNotFound)
  | some inst =>
    if inst.state != "running" then (db, .error notReadyError)
    else
      let lazyInit : DB × AllocState :=
        match findAlloc db inst.id with
        | some a => (db, a)
        | none =>
          let a : AllocState := ⟨inst.id, 2⟩
          ({ db with alloc_states := db.alloc_states ++ [a] }, a)
      let db1 := lazyInit.1
      let alloc := lazyInit.2
      let next_octet := alloc.last_octet + 1
      if 254 ≤ next_octet then (db1, .error poolExhaustedError)
      else
        let peer : Peer :=
          { id := db1.next_peer_id, instance_id := inst.id, name := name,
            device_type := device_type, assigned_ip := mkPeerIp next_octet }
        ({ db1 with
            peers := db1.peers ++ [peer],
            alloc_states := db1.alloc_states.map (fun a =>
              if a.instance_id == inst.id then { a with last_octet := next_octet } else a),
            next_peer_id := db1.next_peer_id + 1 },
         .ok peer)

/-- Embeds `list_peers` (app.py): ownership check (404), then the peers of the
instance (read-only; the response ordering is irrelevant here). -/
def list_peers (db : DB) (uid iid : Nat) : Except HTTPError (List Peer) :=
  match findInstanceOwned db iid uid with
  | none => .error instanceNotFound
  | some inst => .ok (db.peers.filter (fun p => p.instance_id == inst.id))

/-- Embeds the database part of `get_peer_config` (app.py): the join-based
ownership lookup (404 on miss).  Reading the rendered config file from disk is
external I/O; the located peer record stands for its config. -/
def get_peer_config (db : DB) (uid pid : Nat) : Except HTTPError Peer :=
  match findPeerOwned db pid uid with
  | none => .error peerNotFound
  | some p => .ok p

/-- Embeds `delete_peer` (app.py): join-based ownership lookup (404 on miss),
then deletion of exactly that peer row.  The config file removal is external
I/O with no database effect. -/
def delete_peer (db : DB) (uid pid : Nat) : DB × Except HTTPError Unit :=
  match findPeerOwned db pid uid with
  | none => (db, .error peerNotFound)
  | some p =>
    ({ db with peers := db.peers.filter (fun q => q.id != p.id) }, .ok ())

/-- Embeds `delete_instance` (app.py): ownership check (404); then, when
`aws_instance_id` is set, `terminate_instance` is called and any exception it
raises (`terminate_fails`) is caught and only logged, so the cascade below runs
in either case: delete all peers of the instance, its ledger row, and the
instance itself, in one commit. -/
def delete_instance (db : DB) (uid iid : Nat) (terminate_fails : Bool) :
    DB × Except HTTPError Unit :=
  match findInstanceOwned db iid uid with
  | none => (db, .error instanceNotFound)
  | some inst =>
    ({ db with
        peers := db.peers.filter (fun p => p.instance_id != iid),
        alloc_states := db.alloc_states.filter (fun a => a.instance_id != iid),
        instances := db.instances.filter (fun i => i.id != inst.id) },
     .ok ())

/-! ### Event traces and reachable states -/

/-- One externally triggered state transition of the system. -/
inductive Event where
  | createInstance (uid : Nat) (region instance_type : String)
  | launchSuccess (iid : Nat) (aws_id public_ip : String)
  | launchFail (iid : Nat)
  | createPeer (uid iid : Nat) (name device_type : String)
  | deletePeer (uid pid : Nat)
  | deleteInstance (uid iid : Nat) (terminate_fails : Bool)
deriving Repr, DecidableEq

def applyEvent (db : DB) : Event → DB
  | .createInstance uid r t => (create_instance db uid r t).1
  | .launchSuccess iid a p => launch_success db iid a p
  | .launchFail iid => launch_fail db iid
  | .createPeer uid iid n dt => (create_peer db uid iid n dt).1
  | .deletePeer uid pid => (delete_peer db uid pid).1
  | .deleteInstance uid iid tf => (delete_instance db uid iid tf).1

def applyEvents (db : DB) : List Event → DB
  | [] => db
  | e :: es => applyEvents (applyEvent db e) es

/-- The empty database (ids autoincrement from 1). -/
def db0 : DB :=
  { instances := [], peers := [], alloc_states := [],
    next_instance_id := 1, next_peer_id := 1, pending_launches := [] }

/-- States reachable from the empty database by API events. -/
inductive Reachable : DB → Prop where
  | init : Reachable db0
  | step {db : DB} (e : Event) : Reachable db → Reachable (applyEvent db e)

/-! ### Basic lemmas about the queries -/

theorem mkPeerIp_injective : ∀ a b : Nat, mkPeerIp a = mkPeerIp b → a = b := by
  intro a b h
  apply natToString_injective
  have hd := congrArg String.data h
  simp only [mkPeerIp, String.data_append] at hd
  have := List.append_cancel_left hd
  exact congrArg (fun l => String.mk l) this

theorem find?_map_eq {α β} {f : α → β} {p : α → Bool} {q : β → Bool}
    (hpq : ∀ a, q (f a) = p a) : ∀ l : List α, (l.map f).find? q = (l.find? p).map f := by
  intro l
  induction l with
  | nil => rfl
  | cons a l ih =>
    by_cases hp : p a
    · simp [List.find?_cons_of_pos, hp, hpq a]
    · have hq : ¬ q (f a) := by rw [hpq a]; simpa using hp
      simp only [List.map_cons]
      rw [List.find?_cons_of_neg _ hq, List.find?_cons_of_neg _ hp, ih]

theorem find?_filter_of_imp {α} {p q : α → Bool} (l : List α)
    (h : ∀ a, p a = true → q a = true) : (l.filter q).find? p = l.find? p := by
  induction l with
  | nil => rfl
  | cons a l ih =>
    by_cases hq : q a
    · by_cases hp : p a
      · simp [List.filter_cons, hq, List.find?_cons_of_pos, hp]
      · simp only [List.filter_cons, hq, if_true]
        rw [List.find?_cons_of_neg _ hp, List.find?_cons_of_neg _ hp, ih]
    · have hp : ¬ p a = true := fun hpa => hq (h a hpa)
      have hskip : (a :: l).filter q = l.filter q := by simp [List.filter_cons, hq]
      rw [hskip, ih, List.find?_cons_of_neg _ hp]

theorem findInstanceOwned_eq_some {db : DB} {iid uid : Nat} {inst : Instance}
    (h : findInstanceOwned db iid uid = some inst) :
    inst ∈ db.instances ∧ inst.id = iid ∧ inst.user_id = uid := by
  refine ⟨List.mem_of_find?_eq_some h, ?_, ?_⟩
  · have := List.find?_some h
    simp at this
    exact this.1
  · have := List.find?_some h
    simp at this
    exact this.2

theorem findInstanceById_eq_some {db : DB} {iid : Nat} {inst : Instance}
    (h : findInstanceById db iid = some inst) :
    inst ∈ db.instances ∧ inst.id = iid := by
  refine ⟨List.mem_of_find?_eq_some h, ?_⟩
  have := List.find?_some h
  simpa using this

theorem findAlloc_eq_some {db : DB} {iid : Nat} {a : AllocState}
    (h : findAlloc db iid = some a) : a ∈ db.alloc_states ∧ a.instance_id = iid := by
  refine ⟨List.mem_of_find?_eq_some h, ?_⟩
  have := List.find?_some h
  simpa using this

theorem findAlloc_eq_none {db : DB} {iid : Nat} (h : findAlloc db iid = none) :
    ∀ a ∈ db.alloc_states, a.instance_id ≠ iid := by
  intro a ha
  have := List.find?_eq_none.mp h a ha
  simpa using this

theorem nodup_key_unique {α β} [DecidableEq β] {l : List α} {f : α → β}
    (h : (l.map f).Nodup) :
    ∀ x ∈ l, ∀ y ∈ l, f x = f y → x = y := by
  intro x hx y hy hxy
  exact List.inj_on_of_nodup_map h hx hy hxy

/-! ### The allocator view and the inductive invariant -/

/-- The assigned addresses of the peers of one machine. -/
def peerIpsOf (db : DB) (iid : Nat) : List String :=
  (db.peers.filter (fun p => p.instance_id == iid)).map (fun p => p.assigned_ip)

/-- The ledger cursor of a machine; `2` when no ledger row exists yet, which is
exactly the value a fresh row would carry. -/
def cursorView (db : DB) (iid : Nat) : Nat :=
  ((findAlloc db iid).map (fun a => a.last_octet)).getD 2

/-- The addresses of a machine's peers are the rendering of a duplicate-free
set of octets, all bounded by the ledger cursor. -/
def OctetsOk (db : DB) (iid : Nat) : Prop :=
  ∃ os : List Nat, os.Nodup ∧ (∀ k ∈ os, k ≤ cursorView db iid) ∧
    peerIpsOf db iid = os.map mkPeerIp

/-- The inductive invariant of the system. -/
structure Inv (db : DB) : Prop where
  inst_fresh : ∀ i ∈ db.instances, i.id < db.next_instance_id
  inst_nodup : (db.instances.map (fun i => i.id)).Nodup
  peer_fresh : ∀ p ∈ db.peers, p.id < db.next_peer_id
  peer_nodup : (db.peers.map (fun p => p.id)).Nodup
  alloc_nodup : (db.alloc_states.map (fun a => a.instance_id)).Nodup
  pending_launching : ∀ i ∈ db.instances, i.id ∈ db.pending_launches → i.state = "launching"
  state_wf : ∀ i ∈ db.instances,
    i.state = "launching" ∨ i.state = "running" ∨ i.state = "failed"
  alloc_running : ∀ a ∈ db.alloc_states,
    ∃ i ∈ db.instances, i.id = a.instance_id ∧ i.state = "running"
  user_limit : ∀ uid, countInstancesOf db uid ≤ MAX_INSTANCES_PER_USER
  octets_ok : ∀ iid, OctetsOk db iid

theorem inv_db0 : Inv db0 := by
  constructor <;> simp [db0, countInstancesOf, OctetsOk, peerIpsOf, cursorView, findAlloc]

/-! ### Invariant preservation -/

theorem octetsOk_same (db : DB) {db' : DB} {iid : Nat}
    (hp : peerIpsOf db' iid = peerIpsOf db iid)
    (hc : cursorView db' iid = cursorView db iid)
    (h : OctetsOk db iid) : OctetsOk db' iid := by
  obtain ⟨os, h1, h2, h3⟩ := h
  exact ⟨os, h1, by rw [hc]; exact h2, by rw [hp]; exact h3⟩

theorem octetsOk_sublist (db : DB) {db' : DB} {iid : Nat}
    (hp : List.Sublist (peerIpsOf db' iid) (peerIpsOf db iid))
    (hc : cursorView db' iid = cursorView db iid)
    (h : OctetsOk db iid) : OctetsOk db' iid := by
  obtain ⟨os, h1, h2, h3⟩ := h
  rw [h3] at hp
  obtain ⟨os', hsub, heq⟩ := List.sublist_map_iff.mp hp
  exact ⟨os', h1.sublist hsub, fun k hk => by rw [hc]; exact h2 k (hsub.mem hk), heq⟩

/-- The instance record inserted by `create_instance`. -/
def newInst (db : DB) (uid : Nat) (r t : String) : Instance :=
  { id := db.next_instance_id, user_id := uid, aws_instance_id := none,
    region := r, public_ip := none, state := "launching", instance_type := t }

theorem create_instance_reject {db : DB} {uid : Nat} {r t : String}
    (h : MAX_INSTANCES_PER_USER ≤ countInstancesOf db uid) :
    create_instance db uid r t = (db, .error maxInstancesError) := by
  simp [create_instance, h]

theorem create_instance_accept {db : DB} {uid : Nat} {r t : String}
    (h : countInstancesOf db uid < MAX_INSTANCES_PER_USER) :
    create_instance db uid r t =
      ({ db with instances := db.instances ++ [newInst db uid r t],
                 next_instance_id := db.next_instance_id + 1,
                 pending_launches := db.pending_launches ++ [db.next_instance_id] },
       .ok (newInst db uid r t)) := by
  simp [create_instance, Nat.not_le.mpr h, newInst]

theorem inv_create_instance {db : DB} (hI : Inv db) (uid : Nat) (r t : String) :
    Inv (create_instance db uid r t).1 := by
  by_cases h : MAX_INSTANCES_PER_USER ≤ countInstancesOf db uid
  · rw [create_instance_reject h]
    exact hI
  · rw [create_instance_accept (Nat.not_le.mp h)]
    constructor
    · intro i hi
      dsimp only at hi ⊢
      simp only [List.mem_append, List.mem_singleton] at hi
      rcases hi with hi | hi
      · have := hI.inst_fresh i hi
        omega
      · subst hi
        simp [newInst]
    · dsimp only
      simp only [List.map_append, List.map_cons, List.map_nil]
      rw [List.nodup_append]
      refine ⟨hI.inst_nodup, by simp, ?_⟩
      intro x hx hy
      simp only [newInst, List.mem_singleton] at hy
      subst hy
      simp only [List.mem_map] at hx
      obtain ⟨i, hi, hix⟩ := hx
      have := hI.inst_fresh i hi
      omega
    · exact hI.peer_fresh
    · exact hI.peer_nodup
    · exact hI.alloc_nodup
    · intro i hi hpend
      dsimp only at hi hpend
      simp only [List.mem_append, List.mem_singleton] at hi hpend
      rcases hi with hi | hi
      · rcases hpend with hpend | hpend
        · exact hI.pending_launching i hi hpend
        · exfalso
          have := hI.inst_fresh i hi
          omega
      · subst hi
        rfl
    · intro i hi
      dsimp only at hi
      simp only [List.mem_append, List.mem_singleton] at hi
      rcases hi with hi | hi
      · exact hI.state_wf i hi
      · subst hi
        simp [newInst]
    · intro a ha
      obtain ⟨i, hi, hia, his⟩ := hI.alloc_running a ha
      exact ⟨i, by simp [List.mem_append, hi], hia, his⟩
    · intro uid'
      have hbase := hI.user_limit uid'
      have hlt : countInstancesOf db uid < MAX_INSTANCES_PER_USER := Nat.not_le.mp h
      simp only [countInstancesOf, newInst, List.filter_append] at hbase hlt ⊢
      by_cases huid : uid = uid'
      · subst huid
        have h1 : (List.filter (fun i => i.user_id == uid)
            [(⟨db.next_instance_id, uid, none, r, none, "launching", t⟩ : Instance)]).length
              = 1 := by simp
        simp only [List.length_append, h1]
        omega
      · have h0 : (List.filter (fun i => i.user_id == uid')
            [(⟨db.next_instance_id, uid, none, r, none, "launching", t⟩ : Instance)]).length
              = 0 := by simp [huid]
        simp only [List.length_append, h0]
        omega
    · intro iid
      exact octetsOk_same db rfl rfl (hI.octets_ok iid)

theorem map_key_eq {α β} {f : α → α} {g : α → β} (h : ∀ a, g (f a) = g a) (l : List α) :
    (l.map f).map g = l.map g := by
  induction l with
  | nil => rfl
  | cons a l ih => simp [h, ih]

theorem length_filter_map_eq {α} {f : α → α} {p : α → Bool} (h : ∀ a, p (f a) = p a)
    (l : List α) : ((l.map f).filter p).length = (l.filter p).length := by
  induction l with
  | nil => rfl
  | cons a l ih =>
    simp only [List.map_cons, List.filter_cons, h a]
    cases hp : p a <;> simp [ih]

theorem delete_peer_some {db : DB} {uid pid : Nat} {p : Peer}
    (h : findPeerOwned db pid uid = some p) :
    delete_peer db uid pid =
      ({ db with peers := db.peers.filter (fun q => q.id != p.id) }, .ok ()) := by
  simp [delete_peer, h]

theorem delete_peer_none {db : DB} {uid pid : Nat}
    (h : findPeerOwned db pid uid = none) :
    delete_peer db uid pid = (db, .error peerNotFound) := by
  simp [delete_peer, h]

theorem inv_delete_peer {db : DB} (hI : Inv db) (uid pid : Nat) :
    Inv (delete_peer db uid pid).1 := by
  cases h : findPeerOwned db pid uid with
  | none => rw [delete_peer_none h]; exact hI
  | some p =>
    rw [delete_peer_some h]
    dsimp only
    constructor
    · exact hI.inst_fresh
    · exact hI.inst_nodup
    · intro q hq
      exact hI.peer_fresh q (List.mem_of_mem_filter hq)
    · exact hI.peer_nodup.sublist ((List.filter_sublist _).map _)
    · exact hI.alloc_nodup
    · exact hI.pending_launching
    · exact hI.state_wf
    · exact hI.alloc_running
    · exact hI.user_limit
    · intro iid
      refine octetsOk_sublist db ?_ rfl (hI.octets_ok iid)
      show List.Sublist
        (((db.peers.filter (fun q => q.id != p.id)).filter
            (fun q => q.instance_id == iid)).map (fun q => q.assigned_ip))
        ((db.peers.filter (fun q => q.instance_id == iid)).map (fun q => q.assigned_ip))
      exact ((List.filter_sublist _).filter _).map _

theorem delete_instance_some {db : DB} {uid iid : Nat} {tf : Bool} {inst : Instance}
    (h : findInstanceOwned db iid uid = some inst) :
    delete_instance db uid iid tf =
      ({ db with
          peers := db.peers.filter (fun p => p.instance_id != iid),
          alloc_states := db.alloc_states.filter (fun a => a.instance_id != iid),
          instances := db.instances.filter (fun i => i.id != inst.id) },
       .ok ()) := by
  simp [delete_instance, h]

theorem delete_instance_none {db : DB} {uid iid : Nat} {tf : Bool}
    (h : findInstanceOwned db iid uid = none) :
    delete_instance db uid iid tf = (db, .error instanceNotFound) := by
  simp [delete_instance, h]

theorem inv_delete_instance {db : DB} (hI : Inv db) (uid iid : Nat) (tf : Bool) :
    Inv (delete_instance db uid iid tf).1 := by
  cases h : findInstanceOwned db iid uid with
  | none => rw [delete_instance_none h]; exact hI
  | some inst =>
    obtain ⟨hmem, hid, huid⟩ := findInstanceOwned_eq_some h
    rw [delete_instance_some h]
    constructor
    · intro i hi
      exact hI.inst_fresh i (List.mem_of_mem_filter hi)
    · exact hI.inst_nodup.sublist ((List.filter_sublist _).map _)
    · intro q hq
      exact hI.peer_fresh q (List.mem_of_mem_filter hq)
    · exact hI.peer_nodup.sublist ((List.filter_sublist _).map _)
    · exact hI.alloc_nodup.sublist ((List.filter_sublist _).map _)
    · intro i hi hp
      exact hI.pending_launching i (List.mem_of_mem_filter hi) hp
    · intro i hi
      exact hI.state_wf i (List.mem_of_mem_filter hi)
    · intro a ha
      have hmem' := List.mem_of_mem_filter ha
      have hne : a.instance_id ≠ iid := by
        have := List.of_mem_filter ha
        simpa using this
      obtain ⟨i, hi, hia, his⟩ := hI.alloc_running a hmem'
      refine ⟨i, ?_, hia, his⟩
      apply List.mem_filter.mpr
      refine ⟨hi, ?_⟩
      simp only [bne_iff_ne, ne_eq]
      omega
    · intro uid'
      calc ((db.instances.filter (fun i => i.id != inst.id)).filter
              (fun i => i.user_id == uid')).length
          ≤ (db.instances.filter (fun i => i.user_id == uid')).length :=
            (((List.filter_sublist _).filter _).length_le)
        _ ≤ MAX_INSTANCES_PER_USER := hI.user_limit uid'
    · intro j
      by_cases hj : j = iid
      · subst hj
        refine ⟨[], by simp, by simp, ?_⟩
        have : (db.peers.filter (fun p => p.instance_id != j)).filter
            (fun p => p.instance_id == j) = [] := by
          rw [List.filter_eq_nil_iff]
          intro p hp
          have := List.of_mem_filter hp
          simp only [bne_iff_ne, ne_eq] at this
          simp [this]
        simp [peerIpsOf, this]
      · refine octetsOk_same db ?_ ?_ (hI.octets_ok j)
        · have hpe : (db.peers.filter (fun p => p.instance_id != iid)).filter
              (fun p => p.instance_id == j) = db.peers.filter (fun p => p.instance_id == j) := by
            rw [List.filter_comm]
            apply List.filter_eq_self.mpr
            intro p hp
            have hs := List.of_mem_filter hp
            simp only [beq_iff_eq] at hs
            simp [hs, hj]
          simp only [peerIpsOf, hpe]
        · simp only [cursorView, findAlloc]
          rw [find?_filter_of_imp]
          intro a ha
          simp only [beq_iff_eq] at ha
          simp [ha, hj]

theorem inv_launch_fail {db : DB} (hI : Inv db) (iid : Nat) :
    Inv (launch_fail db iid) := by
  unfold launch_fail
  by_cases hpend : db.pending_launches.contains iid
  · simp only [hpend, if_true]
    cases hfind : findInstanceById db iid with
    | none =>
      constructor
      · exact hI.inst_fresh
      · exact hI.inst_nodup
      · exact hI.peer_fresh
      · exact hI.peer_nodup
      · exact hI.alloc_nodup
      · intro i hi hp
        exact hI.pending_launching i hi (List.mem_of_mem_filter hp)
      · exact hI.state_wf
      · exact hI.alloc_running
      · exact hI.user_limit
      · intro j
        exact octetsOk_same db rfl rfl (hI.octets_ok j)
    | some inst =>
      obtain ⟨hmem, hid⟩ := findInstanceById_eq_some hfind
      constructor
      · intro i' hi'
        obtain ⟨i, hi, hfi⟩ := List.mem_map.mp hi'
        subst hfi
        have := hI.inst_fresh i hi
        split <;> simpa
      · rw [map_key_eq (fun i => by split <;> rfl)]
        exact hI.inst_nodup
      · exact hI.peer_fresh
      · exact hI.peer_nodup
      · exact hI.alloc_nodup
      · intro i' hi' hp
        obtain ⟨i, hi, hfi⟩ := List.mem_map.mp hi'
        have hid' : i'.id = i.id := by rw [← hfi]; split <;> rfl
        rw [hid'] at hp
        have hmem' : i.id ∈ db.pending_launches := List.mem_of_mem_filter hp
        have hne : i.id ≠ iid := by
          have := List.of_mem_filter hp
          simpa using this
        have hstate : i.state = "launching" := hI.pending_launching i hi hmem'
        rw [← hfi]
        rw [if_neg (by simp [hne])]
        exact hstate
      · intro i' hi'
        obtain ⟨i, hi, hfi⟩ := List.mem_map.mp hi'
        rw [← hfi]
        split
        · simp
        · exact hI.state_wf i hi
      · intro a ha
        obtain ⟨i, hi, hia, his⟩ := hI.alloc_running a ha
        have hne : i.id ≠ iid := by
          intro hcontra
          have hpend' : iid ∈ db.pending_launches := by
            simpa using hpend
          have : i = inst := by
            apply nodup_key_unique hI.inst_nodup i hi inst hmem
            rw [hcontra, hid]
          subst this
          have := hI.pending_launching i hi (by rwa [hcontra])
          rw [his] at this
          simp at this
        refine ⟨i, ?_, hia, his⟩
        apply List.mem_map.mpr
        refine ⟨i, hi, ?_⟩
        simp [hne]
      · intro uid'
        simp only [countInstancesOf]
        rw [length_filter_map_eq (fun i => by split <;> rfl)]
        exact hI.user_limit uid'
      · intro j
        exact octetsOk_same db rfl rfl (hI.octets_ok j)
  · simp only [hpend, if_false]
    exact hI

/-- A machine whose background launch task is still pending has no ledger row:
its state is still `"launching"`, while every ledger row belongs to a
`"running"` machine. -/
theorem no_alloc_of_pending {db : DB} (hI : Inv db) {iid : Nat} {inst : Instance}
    (hfind : findInstanceById db iid = some inst)
    (hpend : iid ∈ db.pending_launches) :
    findAlloc db iid = none := by
  cases ha : findAlloc db iid with
  | none => rfl
  | some a =>
    exfalso
    obtain ⟨hamem, haid⟩ := findAlloc_eq_some ha
    obtain ⟨hmem, hid⟩ := findInstanceById_eq_some hfind
    obtain ⟨i, hi, hia, his⟩ := hI.alloc_running a hamem
    have hieq : i = inst := by
      apply nodup_key_unique hI.inst_nodup i hi inst hmem
      rw [hia, haid, hid]
    subst hieq
    have hlaunch := hI.pending_launching i hi (by rwa [hia, haid])
    rw [his] at hlaunch
    simp at hlaunch

theorem launch_success_eq {db : DB} {iid : Nat} {aid pip : String} {inst : Instance}
    (hpend : db.pending_launches.contains iid)
    (hfind : findInstanceById db iid = some inst) :
    launch_success db iid aid pip =
      { db with
        pending_launches := db.pending_launches.filter (fun j => j != iid),
        instances := db.instances.map (fun i =>
          if i.id == iid then
            { i with aws_instance_id := some aid, public_ip := some pip,
                     state := "running" }
          else i),
        alloc_states := db.alloc_states ++ [⟨iid, 2⟩] } := by
  unfold launch_success
  rw [if_pos hpend, hfind]

theorem inv_launch_success {db : DB} (hI : Inv db) (iid : Nat) (aid pip : String) :
    Inv (launch_success db iid aid pip) := by
  by_cases hpend : db.pending_launches.contains iid
  · cases hfind : findInstanceById db iid with
    | none =>
      unfold launch_success
      rw [if_pos hpend, hfind]
      constructor
      · exact hI.inst_fresh
      · exact hI.inst_nodup
      · exact hI.peer_fresh
      · exact hI.peer_nodup
      · exact hI.alloc_nodup
      · intro i hi hp
        exact hI.pending_launching i hi (List.mem_of_mem_filter hp)
      · exact hI.state_wf
      · exact hI.alloc_running
      · exact hI.user_limit
      · intro j
        exact octetsOk_same db rfl rfl (hI.octets_ok j)
    | some inst =>
      have hpend' : iid ∈ db.pending_launches := by simpa using hpend
      have hnoalloc : findAlloc db iid = none := no_alloc_of_pending hI hfind hpend'
      obtain ⟨hmem, hid⟩ := findInstanceById_eq_some hfind
      rw [launch_success_eq hpend hfind]
      constructor
      · intro i' hi'
        obtain ⟨i, hi, hfi⟩ := List.mem_map.mp hi'
        have hidp : i'.id = i.id := by rw [← hfi]; split <;> rfl
        rw [hidp]
        exact hI.inst_fresh i hi
      · rw [map_key_eq (fun i => by split <;> rfl)]
        exact hI.inst_nodup
      · exact hI.peer_fresh
      · exact hI.peer_nodup
      · simp only [List.map_append]
        rw [List.nodup_append]
        refine ⟨hI.alloc_nodup, by simp, ?_⟩
        intro x hx hy
        simp only [List.map_cons, List.map_nil, List.mem_singleton] at hy
        subst hy
        simp only [List.mem_map] at hx
        obtain ⟨a, ha, hax⟩ := hx
        exact findAlloc_eq_none hnoalloc a ha hax
      · intro i' hi' hp
        obtain ⟨i, hi, hfi⟩ := List.mem_map.mp hi'
        have hidp : i'.id = i.id := by rw [← hfi]; split <;> rfl
        rw [hidp] at hp
        have hmem' : i.id ∈ db.pending_launches := List.mem_of_mem_filter hp
        have hne : i.id ≠ iid := by
          have := List.of_mem_filter hp
          simpa using this
        rw [← hfi, if_neg (by simp [hne])]
        exact hI.pending_launching i hi hmem'
      · intro i' hi'
        obtain ⟨i, hi, hfi⟩ := List.mem_map.mp hi'
        rw [← hfi]
        split
        · simp
        · exact hI.state_wf i hi
      · intro a ha
        simp only [List.mem_append, List.mem_singleton] at ha
        rcases ha with ha | ha
        · have hane : a.instance_id ≠ iid := findAlloc_eq_none hnoalloc a ha
          obtain ⟨i, hi, hia, his⟩ := hI.alloc_running a ha
          have hne : i.id ≠ iid := by rw [hia]; exact hane
          refine ⟨i, ?_, hia, his⟩
          apply List.mem_map.mpr
          exact ⟨i, hi, by simp [hne]⟩
        · subst ha
          refine ⟨{ inst with aws_instance_id := some aid,
                              public_ip := some pip,
                              state := "running" }, ?_, by simpa using hid, rfl⟩
          apply List.mem_map.mpr
          exact ⟨inst, hmem, by simp [hid]⟩
      · intro uid'
        simp only [countInstancesOf]
        rw [length_filter_map_eq (fun i => by split <;> rfl)]
        exact hI.user_limit uid'
      · intro j
        refine octetsOk_same db ?_ ?_ (hI.octets_ok j)
        · rfl
        · by_cases hj : j = iid
          · subst hj
            simp only [cursorView, findAlloc] at hnoalloc ⊢
            rw [List.find?_append, hnoalloc]
            simp
          · simp only [cursorView, findAlloc]
            rw [List.find?_append]
            cases hold : db.alloc_states.find? (fun a => a.instance_id == j) with
            | some a => simp [hold]
            | none =>
              simp only [hold, Option.none_or]
              have hne : ((⟨iid, 2⟩ : AllocState).instance_id == j) = false := by
                simp
                omega
              simp [List.find?, hne]
  · unfold launch_success
    rw [if_neg hpend]
    exact hI

/-! ### Characterization of `create_peer` -/

theorem create_peer_no_instance {db : DB} {uid iid : Nat} {n dt : String}
    (h : findInstanceOwned db iid uid = none) :
    create_peer db uid iid n dt = (db, .error instanceNotFound) := by
  simp [create_peer, h]

theorem create_peer_not_ready {db : DB} {uid iid : Nat} {n dt : String} {inst : Instance}
    (h : findInstanceOwned db iid uid = some inst)
    (hs : inst.state ≠ "running") :
    create_peer db uid iid n dt = (db, .error notReadyError) := by
  simp [create_peer, h, hs]

theorem create_peer_exhausted {db : DB} {uid iid : Nat} {n dt : String}
    {inst : Instance} {a : AllocState}
    (h : findInstanceOwned db iid uid = some inst)
    (hs : inst.state = "running")
    (ha : findAlloc db inst.id = some a)
    (hfull : 254 ≤ a.last_octet + 1) :
    create_peer db uid iid n dt = (db, .error poolExhaustedError) := by
  simp [create_peer, h, hs, ha, hfull]

theorem create_peer_ok_existing {db : DB} {uid iid : Nat} {n dt : String}
    {inst : Instance} {a : AllocState}
    (h : findInstanceOwned db iid uid = some inst)
    (hs : inst.state = "running")
    (ha : findAlloc db inst.id = some a)
    (hroom : a.last_octet + 1 < 254) :
    create_peer db uid iid n dt =
      ({ db with
          peers := db.peers ++
            [⟨db.next_peer_id, inst.id, n, dt, mkPeerIp (a.last_octet + 1)⟩],
          alloc_states := db.alloc_states.map (fun b =>
            if b.instance_id == inst.id then { b with last_octet := a.last_octet + 1 }
            else b),
          next_peer_id := db.next_peer_id + 1 },
       .ok ⟨db.next_peer_id, inst.id, n, dt, mkPeerIp (a.last_octet + 1)⟩) := by
  simp [create_peer, h, hs, ha, Nat.not_le.mpr hroom]

/-- When the ledger row is absent, `create_peer` first commits a fresh row with
cursor 2 and then proceeds exactly as in the row-present case. -/
theorem create_peer_fresh_step {db : DB} {uid iid : Nat} {n dt : String} {inst : Instance}
    (h : findInstanceOwned db iid uid = some inst)
    (hs : inst.state = "running")
    (ha : findAlloc db inst.id = none) :
    create_peer db uid iid n dt
      = create_peer { db with alloc_states := db.alloc_states ++ [⟨inst.id, 2⟩] }
          uid iid n dt := by
  have h1 : findInstanceOwned { db with alloc_states := db.alloc_states ++ [⟨inst.id, 2⟩] }
      iid uid = some inst := h
  have ha1 : findAlloc { db with alloc_states := db.alloc_states ++ [⟨inst.id, 2⟩] } inst.id
      = some ⟨inst.id, 2⟩ := by
    show (db.alloc_states ++ [(⟨inst.id, 2⟩ : AllocState)]).find?
        (fun a => a.instance_id == inst.id) = some ⟨inst.id, 2⟩
    rw [List.find?_append]
    simp only [findAlloc] at ha
    rw [ha]
    simp
  simp [create_peer, h, h1, hs, ha, ha1]

theorem cursorView_append_fresh (db : DB) {db' : DB} {iid : Nat}
    (hl : db'.alloc_states = db.alloc_states ++ [⟨iid, 2⟩])
    (ha : findAlloc db iid = none) (j : Nat) :
    cursorView db' j = cursorView db j := by
  simp only [cursorView, findAlloc, hl]
  rw [List.find?_append]
  by_cases hj : j = iid
  · subst hj
    simp only [findAlloc] at ha
    rw [ha]
    simp
  · cases hold : db.alloc_states.find? (fun a => a.instance_id == j) with
    | some a => simp [hold]
    | none =>
      simp only [hold, Option.none_or]
      have hne : ((⟨iid, 2⟩ : AllocState).instance_id == j) = false := by
        simp
        omega
      simp [List.find?, hne]

/-- Inserting a fresh ledger row (cursor 2) for a running machine that has
none preserves the invariant. -/
theorem inv_insert_fresh_alloc {db : DB} (hI : Inv db) {iid : Nat} {inst : Instance}
    (hmem : inst ∈ db.instances) (hid : inst.id = iid) (hs : inst.state = "running")
    (ha : findAlloc db iid = none) :
    Inv { db with alloc_states := db.alloc_states ++ [⟨iid, 2⟩] } := by
  constructor
  · exact hI.inst_fresh
  · exact hI.inst_nodup
  · exact hI.peer_fresh
  · exact hI.peer_nodup
  · simp only [List.map_append]
    rw [List.nodup_append]
    refine ⟨hI.alloc_nodup, by simp, ?_⟩
    intro x hx hy
    simp only [List.map_cons, List.map_nil, List.mem_singleton] at hy
    subst hy
    obtain ⟨a, haa, hax⟩ := List.mem_map.mp hx
    exact findAlloc_eq_none ha a haa hax
  · exact hI.pending_launching
  · exact hI.state_wf
  · intro a haa
    simp only [List.mem_append, List.mem_singleton] at haa
    rcases haa with haa | haa
    · exact hI.alloc_running a haa
    · subst haa
      exact ⟨inst, hmem, by simpa using hid, hs⟩
  · exact hI.user_limit
  · intro j
    exact octetsOk_same db rfl (cursorView_append_fresh db rfl ha j)
      (hI.octets_ok j)

theorem cursorView_bump (db db' : DB) {iid c : Nat}
    (hl : db'.alloc_states = db.alloc_states.map (fun b =>
      if b.instance_id == iid then { b with last_octet := c } else b)) :
    ∀ j, cursorView db' j
      = if j = iid ∧ (findAlloc db iid).isSome then c else cursorView db j := by
  intro j
  have hpq : ∀ b : AllocState,
      (((fun b => if b.instance_id == iid then
          ({ b with last_octet := c } : AllocState) else b) b).instance_id == j)
        = (b.instance_id == j) := by
    intro b
    dsimp only
    split <;> rfl
  simp only [cursorView, findAlloc, hl]
  rw [find?_map_eq hpq]
  cases hold : db.alloc_states.find? (fun b => b.instance_id == j) with
  | none =>
    by_cases hj : j = iid
    · subst hj
      simp [findAlloc, hold]
    · simp [hj]
  | some b =>
    have hbj : b.instance_id = j := by
      have := List.find?_some hold
      simpa using this
    by_cases hj : j = iid
    · subst hj
      simp [findAlloc, hold, hbj]
    · have hne : (b.instance_id == iid) = false := by
        simp [hbj]
        omega
      have hne' : ¬ b.instance_id = iid := by omega
      simp [hold, hj, hne, hne', cursorView, findAlloc]

theorem inv_create_peer_existing {db : DB} (hI : Inv db) {uid iid : Nat} {n dt : String}
    {inst : Instance} {a : AllocState}
    (h : findInstanceOwned db iid uid = some inst)
    (hs : inst.state = "running")
    (ha : findAlloc db inst.id = some a)
    (hroom : a.last_octet + 1 < 254) :
    Inv (create_peer db uid iid n dt).1 := by
  rw [create_peer_ok_existing h hs ha hroom]
  have hcursor : cursorView db inst.id = a.last_octet := by
    simp [cursorView, ha]
  constructor
  · exact hI.inst_fresh
  · exact hI.inst_nodup
  · intro p hp
    dsimp only at hp ⊢
    simp only [List.mem_append, List.mem_singleton] at hp
    rcases hp with hp | hp
    · have := hI.peer_fresh p hp
      omega
    · subst hp
      simp
  · dsimp only
    simp only [List.map_append, List.map_cons, List.map_nil]
    rw [List.nodup_append]
    refine ⟨hI.peer_nodup, by simp, ?_⟩
    intro x hx hy
    simp only [List.mem_singleton] at hy
    subst hy
    obtain ⟨p, hp, hpx⟩ := List.mem_map.mp hx
    have := hI.peer_fresh p hp
    omega
  · dsimp only
    rw [map_key_eq (fun b => by split <;> rfl)]
    exact hI.alloc_nodup
  · exact hI.pending_launching
  · exact hI.state_wf
  · intro b' hb'
    obtain ⟨b, hb, hbb⟩ := List.mem_map.mp hb'
    have hidp : b'.instance_id = b.instance_id := by rw [← hbb]; split <;> rfl
    obtain ⟨i, hi, hia, his⟩ := hI.alloc_running b hb
    exact ⟨i, hi, by rw [hidp]; exact hia, his⟩
  · exact hI.user_limit
  · intro j
    have hcv := cursorView_bump db
      { db with
          peers := db.peers ++
            [⟨db.next_peer_id, inst.id, n, dt, mkPeerIp (a.last_octet + 1)⟩],
          alloc_states := db.alloc_states.map (fun b =>
            if b.instance_id == inst.id then { b with last_octet := a.last_octet + 1 }
            else b),
          next_peer_id := db.next_peer_id + 1 }
      rfl
    by_cases hj : j = inst.id
    · subst hj
      obtain ⟨os, hnodup, hbound, heq⟩ := hI.octets_ok inst.id
      refine ⟨os ++ [a.last_octet + 1], ?_, ?_, ?_⟩
      · rw [List.nodup_append]
        refine ⟨hnodup, by simp, ?_⟩
        intro x hx hy
        simp only [List.mem_singleton] at hy
        subst hy
        have hb := hbound _ hx
        rw [hcursor] at hb
        omega
      · intro k hk
        rw [hcv inst.id, if_pos ⟨rfl, by simp [ha]⟩]
        simp only [List.mem_append, List.mem_singleton] at hk
        rcases hk with hk | hk
        · have hb := hbound k hk
          rw [hcursor] at hb
          omega
        · omega
      · show ((db.peers ++ [(⟨db.next_peer_id, inst.id, n, dt,
            mkPeerIp (a.last_octet + 1)⟩ : Peer)]).filter
              (fun p => p.instance_id == inst.id)).map (fun p => p.assigned_ip)
          = (os ++ [a.last_octet + 1]).map mkPeerIp
        rw [List.filter_append, List.map_append]
        have h1 : (List.filter (fun p => p.instance_id == inst.id)
            [(⟨db.next_peer_id, inst.id, n, dt, mkPeerIp (a.last_octet + 1)⟩ : Peer)])
              = [⟨db.next_peer_id, inst.id, n, dt, mkPeerIp (a.last_octet + 1)⟩] := by
          simp
        rw [h1, List.map_append]
        congr 1
    · obtain ⟨os, hnodup, hbound, heq⟩ := hI.octets_ok j
      refine ⟨os, hnodup, ?_, ?_⟩
      · intro k hk
        rw [hcv j]
        simp only [hj, false_and, if_false]
        exact hbound k hk
      · show ((db.peers ++ [(⟨db.next_peer_id, inst.id, n, dt,
            mkPeerIp (a.last_octet + 1)⟩ : Peer)]).filter
              (fun p => p.instance_id == j)).map (fun p => p.assigned_ip)
          = os.map mkPeerIp
        rw [List.filter_append]
        have h0 : (List.filter (fun p => p.instance_id == j)
            [(⟨db.next_peer_id, inst.id, n, dt, mkPeerIp (a.last_octet + 1)⟩ : Peer)])
              = [] := by
          simp
          omega
        rw [h0, List.append_nil]
        exact heq

theorem inv_create_peer {db : DB} (hI : Inv db) (uid iid : Nat) (n dt : String) :
    Inv (create_peer db uid iid n dt).1 := by
  cases h : findInstanceOwned db iid uid with
  | none =>
    rw [create_peer_no_instance h]
    exact hI
  | some inst =>
    by_cases hs : inst.state = "running"
    · cases ha : findAlloc db inst.id with
      | some a =>
        by_cases hroom : a.last_octet + 1 < 254
        · exact inv_create_peer_existing hI h hs ha hroom
        · rw [create_peer_exhausted h hs ha (by omega)]
          exact hI
      | none =>
        rw [create_peer_fresh_step h hs ha]
        obtain ⟨hmem, hid, huid⟩ := findInstanceOwned_eq_some h
        have hI1 : Inv { db with alloc_states := db.alloc_states ++ [⟨inst.id, 2⟩] } :=
          inv_insert_fresh_alloc hI hmem rfl hs ha
        have ha1 : findAlloc { db with alloc_states := db.alloc_states ++ [⟨inst.id, 2⟩] }
            inst.id = some ⟨inst.id, 2⟩ := by
          show (db.alloc_states ++ [(⟨inst.id, 2⟩ : AllocState)]).find?
              (fun a => a.instance_id == inst.id) = some ⟨inst.id, 2⟩
          rw [List.find?_append]
          simp only [findAlloc] at ha
          rw [ha]
          simp
        exact inv_create_peer_existing hI1 h hs ha1 (by simp)
    · rw [create_peer_not_ready h hs]
      exact hI

/-- Invariant preservation for every event, and for every reachable state. -/
theorem inv_applyEvent {db : DB} (hI : Inv db) (e : Event) : Inv (applyEvent db e) := by
  cases e with
  | createInstance uid r t => exact inv_create_instance hI uid r t
  | launchSuccess iid a p => exact inv_launch_success hI iid a p
  | launchFail iid => exact inv_launch_fail hI iid
  | createPeer uid iid n dt => exact inv_create_peer hI uid iid n dt
  | deletePeer uid pid => exact inv_delete_peer hI uid pid
  | deleteInstance uid iid tf => exact inv_delete_instance hI uid iid tf

theorem reachable_inv {db : DB} (h : Reachable db) : Inv db := by
  induction h with
  | init => exact inv_db0
  | step e _ ih => exact inv_applyEvent ih e

/-! ### Further characterization lemmas used by the claims -/

theorem findPeerOwned_eq_some {db : DB} {pid uid : Nat} {p : Peer}
    (h : findPeerOwned db pid uid = some p) :
    p ∈ db.peers ∧ p.id = pid ∧
      ∃ i ∈ db.instances, i.id = p.instance_id ∧ i.user_id = uid := by
  refine ⟨List.mem_of_find?_eq_some h, ?_, ?_⟩
  · have := List.find?_some h
    simp only [Bool.and_eq_true, beq_iff_eq] at this
    exact this.1
  · have hsome := List.find?_some h
    simp only [Bool.and_eq_true, beq_iff_eq] at hsome
    cases hfi : db.instances.find? (fun i => i.id == p.instance_id && i.user_id == uid) with
    | none =>
      rw [hfi] at hsome
      simp at hsome
    | some i =>
      have hmem := List.mem_of_find?_eq_some hfi
      have hpred := List.find?_some hfi
      simp only [Bool.and_eq_true, beq_iff_eq] at hpred
      exact ⟨i, hmem, hpred.1, hpred.2⟩

/-- Every failing `create_peer` call leaves the database exactly as it was. -/
theorem create_peer_error_frame {db : DB} {uid iid : Nat} {n dt : String}
    {err : HTTPError}
    (h : (create_peer db uid iid n dt).2 = .error err) :
    (create_peer db uid iid n dt).1 = db := by
  cases hfind : findInstanceOwned db iid uid with
  | none => rw [create_peer_no_instance hfind]
  | some inst =>
    by_cases hs : inst.state = "running"
    · cases ha : findAlloc db inst.id with
      | some a =>
        by_cases hroom : a.last_octet + 1 < 254
        · rw [create_peer_ok_existing hfind hs ha hroom] at h
          simp at h
        · rw [create_peer_exhausted hfind hs ha (by omega)]
      | none =>
        exfalso
        rw [create_peer_fresh_step hfind hs ha] at h
        have hfind1 : findInstanceOwned
            { db with alloc_states := db.alloc_states ++ [⟨inst.id, 2⟩] } iid uid
              = some inst := hfind
        have ha1 : findAlloc { db with alloc_states := db.alloc_states ++ [⟨inst.id, 2⟩] }
            inst.id = some ⟨inst.id, 2⟩ := by
          show (db.alloc_states ++ [(⟨inst.id, 2⟩ : AllocState)]).find?
              (fun a => a.instance_id == inst.id) = some ⟨inst.id, 2⟩
          rw [List.find?_append]
          simp only [findAlloc] at ha
          rw [ha]
          simp
        rw [create_peer_ok_existing hfind1 hs ha1 (by simp)] at h
        simp at h
    · rw [create_peer_not_ready hfind hs]

/-- What a successful `create_peer` call does, for a machine whose ledger row
is already present. -/
theorem create_peer_success_aux {db : DB} {uid iid : Nat} {n dt : String}
    {inst : Instance} {a : AllocState} {db' : DB} {p : Peer}
    (hfind : findInstanceOwned db iid uid = some inst)
    (hs : inst.state = "running")
    (ha : findAlloc db inst.id = some a)
    (h : create_peer db uid iid n dt = (db', Except.ok p)) :
    db'.instances = db.instances ∧
    db'.peers = db.peers ++ [p] ∧
    p.instance_id = iid ∧
    p.assigned_ip = mkPeerIp (cursorView db iid + 1) ∧
    cursorView db' iid = cursorView db iid + 1 ∧
    (∀ j, j ≠ iid → cursorView db' j = cursorView db j) := by
  obtain ⟨hmem, hid, huid⟩ := findInstanceOwned_eq_some hfind
  have hcursor : cursorView db inst.id = a.last_octet := by
    simp [cursorView, ha]
  by_cases hroom : a.last_octet + 1 < 254
  · rw [create_peer_ok_existing hfind hs ha hroom] at h
    injection h with h1 h2
    injection h2 with h2
    subst h1
    subst h2
    have hcv := cursorView_bump db
      { db with
          peers := db.peers ++
            [⟨db.next_peer_id, inst.id, n, dt, mkPeerIp (a.last_octet + 1)⟩],
          alloc_states := db.alloc_states.map (fun b =>
            if b.instance_id == inst.id then { b with last_octet := a.last_octet + 1 }
            else b),
          next_peer_id := db.next_peer_id + 1 }
      rfl
    refine ⟨rfl, rfl, hid, ?_, ?_, ?_⟩
    · rw [← hid, hcursor]
    · rw [hcv iid, if_pos ⟨hid.symm, by simp [ha]⟩, ← hid, hcursor]
    · intro j hj
      rw [hcv j, if_neg]
      intro hcontra
      exact hj (hcontra.1.trans hid)
  · rw [create_peer_exhausted hfind hs ha (by omega)] at h
    simp at h

/-- What a successful `create_peer` call does, in general: the ledger cursor
advances by exactly one and the returned peer carries the address whose final
octet is the new cursor. -/
theorem create_peer_success_spec {db : DB} {uid iid : Nat} {n dt : String}
    {db' : DB} {p : Peer}
    (h : create_peer db uid iid n dt = (db', Except.ok p)) :
    db'.instances = db.instances ∧
    db'.peers = db.peers ++ [p] ∧
    p.instance_id = iid ∧
    p.assigned_ip = mkPeerIp (cursorView db iid + 1) ∧
    cursorView db' iid = cursorView db iid + 1 ∧
    (∀ j, j ≠ iid → cursorView db' j = cursorView db j) := by
  cases hfind : findInstanceOwned db iid uid with
  | none =>
    rw [create_peer_no_instance hfind] at h
    simp at h
  | some inst =>
    obtain ⟨hmem, hid, huid⟩ := findInstanceOwned_eq_some hfind
    by_cases hs : inst.state = "running"
    · cases ha : findAlloc db inst.id with
      | some a => exact create_peer_success_aux hfind hs ha h
      | none =>
        rw [create_peer_fresh_step hfind hs ha] at h
        have hfind1 : findInstanceOwned
            { db with alloc_states := db.alloc_states ++ [⟨inst.id, 2⟩] } iid uid
              = some inst := hfind
        have ha1 : findAlloc { db with alloc_states := db.alloc_states ++ [⟨inst.id, 2⟩] }
            inst.id = some ⟨inst.id, 2⟩ := by
          show (db.alloc_states ++ [(⟨inst.id, 2⟩ : AllocState)]).find?
              (fun a => a.instance_id == inst.id) = some ⟨inst.id, 2⟩
          rw [List.find?_append]
          simp only [findAlloc] at ha
          rw [ha]
          simp
        have hfresh : ∀ j, cursorView
            { db with alloc_states := db.alloc_states ++ [⟨inst.id, 2⟩] } j
              = cursorView db j :=
          fun j => cursorView_append_fresh db rfl ha j
        obtain ⟨h1, h2, h3, h4, h5, h6⟩ := create_peer_success_aux hfind1 hs ha1 h
        refine ⟨h1, h2, h3, ?_, ?_, ?_⟩
        · rw [h4, hfresh iid]
        · rw [h5, hfresh iid]
        · intro j hj
          rw [h6 j hj, hfresh j]
    · rw [create_peer_not_ready hfind hs] at h
      simp at h

theorem findAlloc_after_insert {db : DB} {iid0 : Nat} (ha : findAlloc db iid0 = none) :
    findAlloc { db with alloc_states := db.alloc_states ++ [⟨iid0, 2⟩] } iid0
      = some ⟨iid0, 2⟩ := by
  show (db.alloc_states ++ [(⟨iid0, 2⟩ : AllocState)]).find?
      (fun a => a.instance_id == iid0) = some ⟨iid0, 2⟩
  rw [List.find?_append]
  simp only [findAlloc] at ha
  rw [ha]
  simp

/-! ### Frame lemmas for the ledger cursor under each event -/

theorem cursorView_create_instance (db : DB) (uid : Nat) (r t : String) (iid : Nat) :
    cursorView (create_instance db uid r t).1 iid = cursorView db iid := by
  unfold create_instance
  split <;> rfl

theorem cursorView_launch_fail (db : DB) (j iid : Nat) :
    cursorView (launch_fail db j) iid = cursorView db iid := by
  unfold launch_fail
  split
  · split <;> rfl
  · rfl

theorem cursorView_launch_success {db : DB} (hI : Inv db) (j : Nat) (aid pip : String)
    (iid : Nat) : cursorView (launch_success db j aid pip) iid = cursorView db iid := by
  by_cases hpend : db.pending_launches.contains j
  · cases hfind : findInstanceById db j with
    | none =>
      unfold launch_success
      rw [if_pos hpend, hfind]
      rfl
    | some inst =>
      rw [launch_success_eq hpend hfind]
      exact cursorView_append_fresh db rfl
        (no_alloc_of_pending hI hfind (by simpa using hpend)) iid
  · unfold launch_success
    rw [if_neg hpend]

theorem cursorView_delete_peer (db : DB) (uid pid iid : Nat) :
    cursorView (delete_peer db uid pid).1 iid = cursorView db iid := by
  unfold delete_peer
  split <;> rfl

theorem cursorView_delete_instance_ne {db : DB} {uid j : Nat} {tf : Bool} {iid : Nat}
    (hne : j ≠ iid) :
    cursorView (delete_instance db uid j tf).1 iid = cursorView db iid := by
  cases h : findInstanceOwned db j uid with
  | none => rw [delete_instance_none h]
  | some inst =>
    rw [delete_instance_some h]
    dsimp only
    simp only [cursorView, findAlloc]
    rw [find?_filter_of_imp]
    intro a ha
    simp only [beq_iff_eq] at ha
    simp [ha]
    omega

theorem create_peer_frame (db : DB) (uid iid : Nat) (n dt : String) :
    (create_peer db uid iid n dt).1.instances = db.instances ∧
    (create_peer db uid iid n dt).1.next_instance_id = db.next_instance_id ∧
    (create_peer db uid iid n dt).1.pending_launches = db.pending_launches := by
  cases hfind : findInstanceOwned db iid uid with
  | none =>
    rw [create_peer_no_instance hfind]
    exact ⟨rfl, rfl, rfl⟩
  | some inst =>
    by_cases hs : inst.state = "running"
    · cases ha : findAlloc db inst.id with
      | some a =>
        by_cases hroom : a.last_octet + 1 < 254
        · rw [create_peer_ok_existing hfind hs ha hroom]
          exact ⟨rfl, rfl, rfl⟩
        · rw [create_peer_exhausted hfind hs ha (by omega)]
          exact ⟨rfl, rfl, rfl⟩
      | none =>
        rw [create_peer_fresh_step hfind hs ha]
        have hfind1 : findInstanceOwned
            { db with alloc_states := db.alloc_states ++ [⟨inst.id, 2⟩] } iid uid
              = some inst := hfind
        rw [create_peer_ok_existing hfind1 hs (findAlloc_after_insert ha) (by simp)]
        exact ⟨rfl, rfl, rfl⟩
    · rw [create_peer_not_ready hfind hs]
      exact ⟨rfl, rfl, rfl⟩

/-! ### The trace of issued last-octets for one machine -/

/-- The machine `iid` does not exist (any more) and can never be re-created,
because the autoincrement counter is already past its id. -/
def MachineAbsent (db : DB) (iid : Nat) : Prop :=
  (∀ i ∈ db.instances, i.id ≠ iid) ∧ iid < db.next_instance_id

theorem machineAbsent_preserved {db : DB} {iid : Nat} (h : MachineAbsent db iid)
    (e : Event) : MachineAbsent (applyEvent db e) iid := by
  obtain ⟨habs, hlt⟩ := h
  cases e with
  | createInstance uid r t =>
    show MachineAbsent (create_instance db uid r t).1 iid
    by_cases hcnt : MAX_INSTANCES_PER_USER ≤ countInstancesOf db uid
    · rw [create_instance_reject hcnt]
      exact ⟨habs, hlt⟩
    · rw [create_instance_accept (Nat.not_le.mp hcnt)]
      constructor
      · intro i hi
        dsimp only at hi
        simp only [List.mem_append, List.mem_singleton] at hi
        rcases hi with hi | hi
        · exact habs i hi
        · subst hi
          simp only [newInst]
          omega
      · dsimp only
        omega
  | launchSuccess j aid pip =>
    show MachineAbsent (launch_success db j aid pip) iid
    unfold launch_success
    split
    · split
      · exact ⟨habs, hlt⟩
      · refine ⟨?_, hlt⟩
        intro i' hi'
        obtain ⟨i, hi, hfi⟩ := List.mem_map.mp hi'
        have : i'.id = i.id := by rw [← hfi]; split <;> rfl
        rw [this]
        exact habs i hi
    · exact ⟨habs, hlt⟩
  | launchFail j =>
    show MachineAbsent (launch_fail db j) iid
    unfold launch_fail
    split
    · split
      · exact ⟨habs, hlt⟩
      · refine ⟨?_, hlt⟩
        intro i' hi'
        obtain ⟨i, hi, hfi⟩ := List.mem_map.mp hi'
        have : i'.id = i.id := by rw [← hfi]; split <;> rfl
        rw [this]
        exact habs i hi
    · exact ⟨habs, hlt⟩
  | createPeer uid j n dt =>
    show MachineAbsent (create_peer db uid j n dt).1 iid
    obtain ⟨h1, h2, -⟩ := create_peer_frame db uid j n dt
    rw [MachineAbsent, h1, h2]
    exact ⟨habs, hlt⟩
  | deletePeer uid pid =>
    show MachineAbsent (delete_peer db uid pid).1 iid
    unfold delete_peer
    split
    · exact ⟨habs, hlt⟩
    · exact ⟨habs, hlt⟩
  | deleteInstance uid j tf =>
    show MachineAbsent (delete_instance db uid j tf).1 iid
    cases hfind : findInstanceOwned db j uid with
    | none =>
      rw [delete_instance_none hfind]
      exact ⟨habs, hlt⟩
    | some inst =>
      rw [delete_instance_some hfind]
      refine ⟨?_, hlt⟩
      intro i hi
      exact habs i (List.mem_of_mem_filter hi)

/-- The last-octet issued to machine `iid` by one event (empty unless the event
is a successful allocation on `iid`).  A successful allocation's issued octet is
recorded as the ledger cursor value right after the call; by
`create_peer_success_spec` this is exactly the final octet of the address in
the returned peer. -/
def allocStep (db : DB) (iid : Nat) : Event → List Nat
  | .createPeer uid j n dt =>
    if j = iid then
      match (create_peer db uid j n dt).2 with
      | .ok _ => [cursorView (create_peer db uid j n dt).1 iid]
      | .error _ => []
    else []
  | _ => []

/-- The last-octets issued to machine `iid` by the successful allocations of an
event trace. -/
def issuedOctets (db : DB) (iid : Nat) : List Event → List Nat
  | [] => []
  | e :: es => allocStep db iid e ++ issuedOctets (applyEvent db e) iid es

theorem issuedOctets_absent {iid : Nat} :
    ∀ (es : List Event) (db : DB), MachineAbsent db iid → issuedOctets db iid es = [] := by
  intro es
  induction es with
  | nil => intro db _; rfl
  | cons e es ih =>
    intro db h
    have htail := ih (applyEvent db e) (machineAbsent_preserved h e)
    show allocStep db iid e ++ issuedOctets (applyEvent db e) iid es = []
    rw [htail, List.append_nil]
    cases e with
    | createPeer uid j n dt =>
      by_cases hj : j = iid
      · subst hj
        have hfind : findInstanceOwned db j uid = none := by
          apply List.find?_eq_none.mpr
          intro i hi
          simp only [Bool.and_eq_true, beq_iff_eq, not_and]
          intro hcontra
          exact absurd hcontra (h.1 i hi)
        simp [allocStep, create_peer_no_instance hfind]
      · simp [allocStep, hj]
    | createInstance uid r t => rfl
    | launchSuccess j a p => rfl
    | launchFail j => rfl
    | deletePeer uid pid => rfl
    | deleteInstance uid j tf => rfl

/-- Main allocator trace theorem: from any invariant-satisfying state, the
octets issued to one machine over any event trace are exactly the consecutive
run starting right above the machine's current ledger cursor. -/
theorem issuedOctets_range (iid : Nat) :
    ∀ (es : List Event) (db : DB), Inv db →
      issuedOctets db iid es
        = List.range' (cursorView db iid + 1) (issuedOctets db iid es).length := by
  intro es
  induction es with
  | nil => intro db _; rfl
  | cons e es ih =>
    intro db hI
    have hI' := inv_applyEvent hI e
    have htail := ih (applyEvent db e) hI'
    cases e with
    | createInstance uid r t =>
      show issuedOctets (applyEvent db (.createInstance uid r t)) iid es
        = List.range' (cursorView db iid + 1)
            (issuedOctets (applyEvent db (.createInstance uid r t)) iid es).length
      have hcv : cursorView (applyEvent db (.createInstance uid r t)) iid
          = cursorView db iid := cursorView_create_instance db uid r t iid
      rw [hcv] at htail
      exact htail
    | launchSuccess j aid pip =>
      show issuedOctets (applyEvent db (.launchSuccess j aid pip)) iid es
        = List.range' (cursorView db iid + 1)
            (issuedOctets (applyEvent db (.launchSuccess j aid pip)) iid es).length
      have hcv : cursorView (applyEvent db (.launchSuccess j aid pip)) iid
          = cursorView db iid := cursorView_launch_success hI j aid pip iid
      rw [hcv] at htail
      exact htail
    | launchFail j =>
      show issuedOctets (applyEvent db (.launchFail j)) iid es
        = List.range' (cursorView db iid + 1)
            (issuedOctets (applyEvent db (.launchFail j)) iid es).length
      have hcv : cursorView (applyEvent db (.launchFail j)) iid
          = cursorView db iid := cursorView_launch_fail db j iid
      rw [hcv] at htail
      exact htail
    | deletePeer uid pid =>
      show issuedOctets (applyEvent db (.deletePeer uid pid)) iid es
        = List.range' (cursorView db iid + 1)
            (issuedOctets (applyEvent db (.deletePeer uid pid)) iid es).length
      have hcv : cursorView (applyEvent db (.deletePeer uid pid)) iid
          = cursorView db iid := cursorView_delete_peer db uid pid iid
      rw [hcv] at htail
      exact htail
    | deleteInstance uid j tf =>
      cases hfind : findInstanceOwned db j uid with
      | none =>
        have hdb : (delete_instance db uid j tf).1 = db := by
          rw [delete_instance_none hfind]
        show issuedOctets (applyEvent db (.deleteInstance uid j tf)) iid es
          = List.range' (cursorView db iid + 1)
              (issuedOctets (applyEvent db (.deleteInstance uid j tf)) iid es).length
        have hcv : cursorView (applyEvent db (.deleteInstance uid j tf)) iid
            = cursorView db iid := by
          show cursorView (delete_instance db uid j tf).1 iid = cursorView db iid
          rw [hdb]
        rw [hcv] at htail
        exact htail
      | some inst =>
        by_cases hj : j = iid
        · subst hj
          obtain ⟨hmem, hid, huid⟩ := findInstanceOwned_eq_some hfind
          have habs : MachineAbsent (applyEvent db (.deleteInstance uid j tf)) j := by
            show MachineAbsent (delete_instance db uid j tf).1 j
            rw [delete_instance_some hfind]
            refine ⟨?_, ?_⟩
            · intro i hi
              have hne := List.of_mem_filter hi
              simp only [bne_iff_ne, ne_eq] at hne
              rw [← hid]
              exact hne
            · have := hI.inst_fresh inst hmem
              dsimp only
              omega
          have hdead := issuedOctets_absent es _ habs
          show issuedOctets (applyEvent db (.deleteInstance uid j tf)) j es
            = List.range' (cursorView db j + 1)
                (issuedOctets (applyEvent db (.deleteInstance uid j tf)) j es).length
          rw [hdead]
          rfl
        · show issuedOctets (applyEvent db (.deleteInstance uid j tf)) iid es
            = List.range' (cursorView db iid + 1)
                (issuedOctets (applyEvent db (.deleteInstance uid j tf)) iid es).length
          have hcv : cursorView (applyEvent db (.deleteInstance uid j tf)) iid
              = cursorView db iid := cursorView_delete_instance_ne hj
          rw [hcv] at htail
          exact htail
    | createPeer uid j n dt =>
      by_cases hj : j = iid
      · subst hj
        cases hres : (create_peer db uid j n dt).2 with
        | error err =>
          have hdb : (create_peer db uid j n dt).1 = db := create_peer_error_frame hres
          have hcv : cursorView (applyEvent db (.createPeer uid j n dt)) j
              = cursorView db j := by
            show cursorView (create_peer db uid j n dt).1 j = cursorView db j
            rw [hdb]
          rw [hcv] at htail
          show allocStep db j (.createPeer uid j n dt)
              ++ issuedOctets (applyEvent db (.createPeer uid j n dt)) j es
            = List.range' (cursorView db j + 1)
                (allocStep db j (.createPeer uid j n dt)
                  ++ issuedOctets (applyEvent db (.createPeer uid j n dt)) j es).length
          rw [show allocStep db j (.createPeer uid j n dt) = [] by
            simp [allocStep, hres]]
          simpa using htail
        | ok p =>
          have hpair : create_peer db uid j n dt
              = ((create_peer db uid j n dt).1, Except.ok p) := by
            rw [← hres]
          obtain ⟨-, -, -, -, h5, -⟩ := create_peer_success_spec hpair
          have hhead : allocStep db j (.createPeer uid j n dt)
              = [cursorView db j + 1] := by
            simp [allocStep, hres, h5]
          have hcv : cursorView (applyEvent db (.createPeer uid j n dt)) j
              = cursorView db j + 1 := h5
          rw [hcv] at htail
          show allocStep db j (.createPeer uid j n dt)
              ++ issuedOctets (applyEvent db (.createPeer uid j n dt)) j es
            = List.range' (cursorView db j + 1)
                (allocStep db j (.createPeer uid j n dt)
                  ++ issuedOctets (applyEvent db (.createPeer uid j n dt)) j es).length
          rw [hhead]
          rw [show ([cursorView db j + 1]
              ++ issuedOctets (applyEvent db (.createPeer uid j n dt)) j es).length
            = (issuedOctets (applyEvent db (.createPeer uid j n dt)) j es).length + 1 by
              simp]
          rw [List.range'_succ]
          rw [← htail]
          rfl
      · have hcv : cursorView (applyEvent db (.createPeer uid j n dt)) iid
            = cursorView db iid := by
          show cursorView (create_peer db uid j n dt).1 iid = cursorView db iid
          cases hres : (create_peer db uid j n dt).2 with
          | error err => rw [create_peer_error_frame hres]
          | ok p =>
            have hpair : create_peer db uid j n dt
                = ((create_peer db uid j n dt).1, Except.ok p) := by
              rw [← hres]
            obtain ⟨-, -, -, -, -, h6⟩ := create_peer_success_spec hpair
            exact h6 iid (fun hcontra => hj hcontra.symm)
        show allocStep db iid (.createPeer uid j n dt)
            ++ issuedOctets (applyEvent db (.createPeer uid j n dt)) iid es
          = List.range' (cursorView db iid + 1)
              (allocStep db iid (.createPeer uid j n dt)
                ++ issuedOctets (applyEvent db (.createPeer uid j n dt)) iid es).length
        rw [show allocStep db iid (.createPeer uid j n dt) = [] by
          simp [allocStep, hj]]
        rw [hcv] at htail
        simpa using htail

/-- No two peers of one machine hold the same assigned address, in any
invariant-satisfying state. -/
theorem distinct_ips {db : DB} (hI : Inv db) :
    ∀ p ∈ db.peers, ∀ q ∈ db.peers, p.instance_id = q.instance_id → p ≠ q →
      p.assigned_ip ≠ q.assigned_ip := by
  intro p hp q hq hinst hne hip
  apply hne
  obtain ⟨os, hnodup, -, heq⟩ := hI.octets_ok p.instance_id
  have hnd : (peerIpsOf db p.instance_id).Nodup := by
    rw [heq]
    exact hnodup.map (fun a b hab => mkPeerIp_injective a b hab)
  have hpmem : p ∈ db.peers.filter (fun r => r.instance_id == p.instance_id) :=
    List.mem_filter.mpr ⟨hp, by simp⟩
  have hqmem : q ∈ db.peers.filter (fun r => r.instance_id == p.instance_id) :=
    List.mem_filter.mpr ⟨hq, by simp [hinst]⟩
  exact List.inj_on_of_nodup_map hnd hpmem hqmem hip

/-! ### Concrete scenarios used as witnesses -/

def ev1 : Event := .createInstance 1 "us-east-1" "t2.micro"

def ev2 : Event := .launchSuccess 1 "i-abc123" "54.1.2.3"

def ev3 : Event := .createPeer 1 1 "a" "phone"

/-- A reachable database with one machine still `launching` (id 1, owner 1). -/
def dbL : DB := applyEvent db0 ev1

/-- A reachable database with one `running` machine (id 1, owner 1), no peers. -/
def dbR : DB := applyEvent dbL ev2

/-- A reachable database with one `running` machine owning one peer. -/
def dbRP : DB := applyEvent dbR ev3

def instL : Instance := ⟨1, 1, none, "us-east-1", none, "launching", "t2.micro"⟩

def instR : Instance :=
  ⟨1, 1, some "i-abc123", "us-east-1", some "54.1.2.3", "running", "t2.micro"⟩

def peer1 : Peer := ⟨1, 1, "a", "phone", "10.10.0.3"⟩

def peer2 : Peer := ⟨2, 1, "b", "phone", "10.10.0.4"⟩

/-- A database with a running machine and no ledger row, to exercise the lazy
initialization path of `create_peer`. -/
def dbNoLedger : DB :=
  { instances := [instR], peers := [], alloc_states := [],
    next_instance_id := 2, next_peer_id := 1, pending_launches := [] }

/-- Iterated allocation on machine 1 of account 1. -/
def allocN (db : DB) : Nat → DB
  | 0 => db
  | k + 1 => (create_peer (allocN db k) 1 1 "d" "t").1

theorem reachable_dbL : Reachable dbL := Reachable.step ev1 Reachable.init

theorem reachable_dbR : Reachable dbR := Reachable.step ev2 reachable_dbL

theorem reachable_dbRP : Reachable dbRP := Reachable.step ev3 reachable_dbR

/-! ### The claims -/

set_option maxRecDepth 8000

/-- C1: each successful allocation advances the ledger cursor to
`candidate = cursor + 1` and returns the address formed from the fixed subnet
prefix with `candidate` as final octet; over any event trace from the initial
database the last-octets issued to one machine are exactly the consecutive run
`3, 4, 5, ...` (strictly increasing, starting at 3, no repeats); and no two
peers of the same machine ever hold the same assigned address. -/
theorem claim_C1 :
    (∀ (db db' : DB) (uid iid : Nat) (n dt : String) (p : Peer),
       create_peer db uid iid n dt = (db', Except.ok p) →
       cursorView db' iid = cursorView db iid + 1 ∧
       p.assigned_ip = mkPeerIp (cursorView db' iid)) ∧
    (∀ (iid : Nat) (es : List Event),
       issuedOctets db0 iid es
         = List.range' 3 (issuedOctets db0 iid es).length) ∧
    (∀ db : DB, Reachable db → ∀ p ∈ db.peers, ∀ q ∈ db.peers,
       p.instance_id = q.instance_id → p ≠ q → p.assigned_ip ≠ q.assigned_ip) := by
  refine ⟨?_, ?_, ?_⟩
  · intro db db' uid iid n dt p h
    obtain ⟨-, -, -, h4, h5, -⟩ := create_peer_success_spec h
    exact ⟨h5, by rw [h5]; exact h4⟩
  · intro iid es
    have h := issuedOctets_range iid es db0 inv_db0
    have hc : cursorView db0 iid = 2 := rfl
    rw [hc] at h
    exact h
  · intro db hdb
    exact distinct_ips (reachable_inv hdb)

/-- C1 witness: one concrete successful allocation on a fresh running machine
issues octet 3, and the concrete trace confirms the range shape. -/
theorem claim_C1_witness :
    (cursorView (create_peer dbR 1 1 "a" "phone").1 1 = cursorView dbR 1 + 1 ∧
     peer1.assigned_ip = mkPeerIp (cursorView (create_peer dbR 1 1 "a" "phone").1 1)) ∧
    issuedOctets db0 1 [ev1, ev2, ev3]
      = List.range' 3 (issuedOctets db0 1 [ev1, ev2, ev3]).length ∧
    (∀ p ∈ dbRP.peers, ∀ q ∈ dbRP.peers,
       p.instance_id = q.instance_id → p ≠ q → p.assigned_ip ≠ q.assigned_ip) :=
  ⟨claim_C1.1 dbR (create_peer dbR 1 1 "a" "phone").1 1 1 "a" "phone" peer1 rfl,
   claim_C1.2.1 1 [ev1, ev2, ev3],
   claim_C1.2.2 dbRP reachable_dbRP⟩

/-- C2: allocating on a machine whose state is `"launching"` or `"failed"`
fails with the NotReady error (HTTP 400, `notReadyError`) and has no side
effects: the returned database is exactly the input one, so the ledger entry
and the peer set are untouched. -/
theorem claim_C2 : ∀ (db : DB) (uid iid : Nat) (n dt : String) (inst : Instance),
    findInstanceOwned db iid uid = some inst →
    (inst.state = "launching" ∨ inst.state = "failed") →
    create_peer db uid iid n dt = (db, .error notReadyError) := by
  intro db uid iid n dt inst h hs
  apply create_peer_not_ready h
  rcases hs with hs | hs <;> simp [hs]

/-- C2 witness: allocation on the concrete launching machine is rejected
without side effects. -/
theorem claim_C2_witness :
    findInstanceOwned dbL 1 1 = some instL ∧
    instL.state = "launching" ∧
    create_peer dbL 1 1 "a" "phone" = (dbL, .error notReadyError) :=
  ⟨rfl, rfl, claim_C2 dbL 1 1 "a" "phone" instL rfl (Or.inl rfl)⟩

/-- C3: on a running machine with ledger cursor `c`, allocation fails with
PoolExhausted exactly when `c + 1 ≥ 254`, and that failure leaves the database
(ledger cursor and peer set) unchanged; concretely, on a fresh machine the
251st allocation succeeds with last-octet 253 and the 252nd fails. -/
theorem claim_C3 :
    (∀ (db : DB) (uid iid : Nat) (n dt : String) (inst : Instance) (c : Nat),
       findInstanceOwned db iid uid = some inst →
       inst.state = "running" →
       findAlloc db inst.id = some ⟨inst.id, c⟩ →
       (((create_peer db uid iid n dt).2 = .error poolExhaustedError) ↔ 254 ≤ c + 1) ∧
       (254 ≤ c + 1 → create_peer db uid iid n dt = (db, .error poolExhaustedError))) ∧
    (create_peer (allocN dbR 250) 1 1 "d" "t").2
      = Except.ok ⟨251, 1, "d", "t", mkPeerIp 253⟩ ∧
    (create_peer (allocN dbR 251) 1 1 "d" "t").2 = .error poolExhaustedError := by
  refine ⟨?_, rfl, rfl⟩
  intro db uid iid n dt inst c h hs ha
  constructor
  · constructor
    · intro herr
      by_contra hfull
      rw [create_peer_ok_existing h hs ha (Nat.not_le.mp hfull)] at herr
      simp at herr
    · intro hfull
      rw [create_peer_exhausted h hs ha hfull]
  · intro hfull
    exact create_peer_exhausted h hs ha hfull

/-- C3 witness: the concrete exhausted machine (cursor 253) satisfies the
hypotheses and exhibits both sides of the boundary. -/
theorem claim_C3_witness :
    findInstanceOwned (allocN dbR 251) 1 1 = some instR ∧
    instR.state = "running" ∧
    findAlloc (allocN dbR 251) instR.id = some ⟨instR.id, 253⟩ ∧
    ((((create_peer (allocN dbR 251) 1 1 "d" "t").2 = .error poolExhaustedError)
        ↔ 254 ≤ 253 + 1) ∧
     (254 ≤ 253 + 1 → create_peer (allocN dbR 251) 1 1 "d" "t"
        = (allocN dbR 251, .error poolExhaustedError))) :=
  ⟨rfl, rfl, rfl, claim_C3.1 (allocN dbR 251) 1 1 "d" "t" instR 253 rfl rfl rfl⟩

/-- C4 counterexample: the claim asserts that a machine that has just
transitioned to `running` with no peers has no ledger entry, but in the
reachable state `dbR` (create then successful launch, no allocation ever)
machine 1 is `running`, has no peers, and its ledger row already exists with
cursor 2 — the launcher creates it eagerly. -/
theorem claim_C4_counterexample :
    Reachable dbR ∧
    findInstanceById dbR 1 = some instR ∧
    instR.state = "running" ∧
    dbR.peers = [] ∧
    findAlloc dbR 1 = some ⟨1, 2⟩ :=
  ⟨reachable_dbR, rfl, rfl, rfl, rfl⟩

/-- C4 (amended): the ledger entry is initialized with cursor 2 and created
either eagerly by the background launcher at the `launching → running`
transition (so a machine that just became running already has a ledger row
with cursor 2 and no allocation has happened), or lazily by the first
peer-creation call if the row is still absent, in which case that call issues
last-octet 3. -/
theorem claim_C4_amended :
    (∀ (db : DB) (iid : Nat) (aid pip : String) (inst : Instance), Inv db →
       db.pending_launches.contains iid = true →
       findInstanceById db iid = some inst →
       findAlloc db iid = none ∧
       findAlloc (launch_success db iid aid pip) iid = some ⟨iid, 2⟩) ∧
    (∀ (db : DB) (uid iid : Nat) (n dt : String) (inst : Instance),
       findInstanceOwned db iid uid = some inst →
       inst.state = "running" →
       findAlloc db inst.id = none →
       cursorView (create_peer db uid iid n dt).1 iid = 3 ∧
       (∃ p, (create_peer db uid iid n dt).2 = Except.ok p ∧
          p.assigned_ip = mkPeerIp 3)) := by
  refine ⟨?_, ?_⟩
  · intro db iid aid pip inst hI hpend hfind
    have ha := no_alloc_of_pending hI hfind (by simpa using hpend)
    refine ⟨ha, ?_⟩
    rw [launch_success_eq hpend hfind]
    show (db.alloc_states ++ [(⟨iid, 2⟩ : AllocState)]).find?
        (fun a => a.instance_id == iid) = some ⟨iid, 2⟩
    rw [List.find?_append]
    simp only [findAlloc] at ha
    rw [ha]
    simp
  · intro db uid iid n dt inst h hs ha
    cases hres : (create_peer db uid iid n dt).2 with
    | error err =>
      exfalso
      rw [create_peer_fresh_step h hs ha] at hres
      have hfind1 : findInstanceOwned
          { db with alloc_states := db.alloc_states ++ [⟨inst.id, 2⟩] } iid uid
            = some inst := h
      rw [create_peer_ok_existing hfind1 hs (findAlloc_after_insert ha) (by simp)] at hres
      simp at hres
    | ok p =>
      obtain ⟨hmem, hid, -⟩ := findInstanceOwned_eq_some h
      obtain ⟨-, -, -, h4, h5, -⟩ := create_peer_success_spec (by rw [← hres])
      have hc : cursorView db iid = 2 := by
        rw [← hid]
        simp [cursorView, ha]
      exact ⟨by rw [h5, hc], p, rfl, by rw [h4, hc]⟩

/-- C4 witness: the eager path on the concrete launching machine, and the lazy
path on a running machine whose ledger row is missing. -/
theorem claim_C4_witness :
    (dbL.pending_launches.contains 1 = true ∧
     findInstanceById dbL 1 = some instL ∧
     findAlloc dbL 1 = none ∧
     findAlloc (launch_success dbL 1 "i-abc123" "54.1.2.3") 1 = some ⟨1, 2⟩) ∧
    (findInstanceOwned dbNoLedger 1 1 = some instR ∧
     instR.state = "running" ∧
     findAlloc dbNoLedger instR.id = none ∧
     cursorView (create_peer dbNoLedger 1 1 "a" "phone").1 1 = 3 ∧
     (∃ p, (create_peer dbNoLedger 1 1 "a" "phone").2 = Except.ok p ∧
        p.assigned_ip = mkPeerIp 3)) :=
  ⟨⟨rfl, rfl, rfl,
    (claim_C4_amended.1 dbL 1 "i-abc123" "54.1.2.3" instL
      (reachable_inv reachable_dbL) rfl rfl).2⟩,
   ⟨rfl, rfl, rfl,
    (claim_C4_amended.2 dbNoLedger 1 1 "a" "phone" instR rfl rfl rfl).1,
    (claim_C4_amended.2 dbNoLedger 1 1 "a" "phone" instR rfl rfl rfl).2⟩⟩

/-- C5: a successful machine deletion removes the machine together with all of
its peers and its ledger row; querying any of those peers afterwards returns
the 404 NotFound error; and the database outcome does not depend on whether
terminating the backing cloud resource failed (that exception is swallowed). -/
theorem claim_C5 : ∀ (db : DB) (uid iid : Nat) (tf : Bool) (inst : Instance),
    Reachable db →
    findInstanceOwned db iid uid = some inst →
    (delete_instance db uid iid tf).2 = Except.ok () ∧
    delete_instance db uid iid true = delete_instance db uid iid false ∧
    (∀ p ∈ (delete_instance db uid iid tf).1.peers, p.instance_id ≠ iid) ∧
    (∀ a ∈ (delete_instance db uid iid tf).1.alloc_states, a.instance_id ≠ iid) ∧
    (∀ i ∈ (delete_instance db uid iid tf).1.instances, i.id ≠ iid) ∧
    (∀ p ∈ db.peers, p.instance_id = iid → ∀ u,
       get_peer_config (delete_instance db uid iid tf).1 u p.id
         = .error peerNotFound) ∧
    peerNotFound.status_code = 404 := by
  intro db uid iid tf inst hreach h
  have hI := reachable_inv hreach
  obtain ⟨hmem, hid, huid⟩ := findInstanceOwned_eq_some h
  rw [delete_instance_some h]
  refine ⟨rfl, ?_, ?_, ?_, ?_, ?_, rfl⟩
  · rw [delete_instance_some h, delete_instance_some h]
  · intro p hp
    have := List.of_mem_filter hp
    simpa using this
  · intro a ha
    have := List.of_mem_filter ha
    simpa using this
  · intro i hi
    have := List.of_mem_filter hi
    rw [← hid]
    simpa using this
  · intro p hp hpi u
    have hnone : findPeerOwned
        { db with
            peers := db.peers.filter (fun q => q.instance_id != iid),
            alloc_states := db.alloc_states.filter (fun a => a.instance_id != iid),
            instances := db.instances.filter (fun i => i.id != inst.id) } p.id u = none := by
      apply List.find?_eq_none.mpr
      intro q hq
      simp only [Bool.and_eq_true, beq_iff_eq, not_and]
      intro hqid
      exfalso
      have hqmem : q ∈ db.peers := List.mem_of_mem_filter hq
      have hqp : q = p := nodup_key_unique hI.peer_nodup q hqmem p hp hqid
      subst hqp
      have := List.of_mem_filter hq
      simp only [bne_iff_ne, ne_eq] at this
      exact this hpi
    simp [get_peer_config, hnone]

/-- C5 witness: deleting the concrete machine with one peer removes
everything; fetching the deleted peer's config 404s. -/
theorem claim_C5_witness :
    findInstanceOwned dbRP 1 1 = some instR ∧
    ((delete_instance dbRP 1 1 true).2 = Except.ok () ∧
     delete_instance dbRP 1 1 true = delete_instance dbRP 1 1 false ∧
     (∀ p ∈ (delete_instance dbRP 1 1 true).1.peers, p.instance_id ≠ 1) ∧
     (∀ a ∈ (delete_instance dbRP 1 1 true).1.alloc_states, a.instance_id ≠ 1) ∧
     (∀ i ∈ (delete_instance dbRP 1 1 true).1.instances, i.id ≠ 1) ∧
     (∀ p ∈ dbRP.peers, p.instance_id = 1 → ∀ u,
        get_peer_config (delete_instance dbRP 1 1 true).1 u p.id
          = .error peerNotFound) ∧
     peerNotFound.status_code = 404) :=
  ⟨rfl, claim_C5 dbRP 1 1 true instR reachable_dbRP rfl⟩

/-- C6: deleting a peer removes only that peer row — the ledger rows, the
machines, and all other peers are untouched — and a later successful
allocation on the same machine issues last-octet `cursor + 1`, never the
deleted peer's last-octet (no address reuse). -/
theorem claim_C6 : ∀ (db : DB) (uid pid : Nat) (p : Peer),
    Reachable db →
    findPeerOwned db pid uid = some p →
    ((delete_peer db uid pid).1.alloc_states = db.alloc_states ∧
     (delete_peer db uid pid).1.instances = db.instances ∧
     (delete_peer db uid pid).1.peers = db.peers.filter (fun q => q.id != p.id) ∧
     (delete_peer db uid pid).2 = Except.ok ()) ∧
    (∀ (uid2 : Nat) (n dt : String) (db'' : DB) (q : Peer),
       create_peer (delete_peer db uid pid).1 uid2 p.instance_id n dt
         = (db'', Except.ok q) →
       q.assigned_ip = mkPeerIp (cursorView db p.instance_id + 1) ∧
       q.assigned_ip ≠ p.assigned_ip) := by
  intro db uid pid p hreach h
  have hI := reachable_inv hreach
  obtain ⟨hpmem, hpid, -⟩ := findPeerOwned_eq_some h
  rw [delete_peer_some h]
  refine ⟨⟨rfl, rfl, rfl, rfl⟩, ?_⟩
  intro uid2 n dt db'' q hq
  obtain ⟨-, -, -, h4, -, -⟩ := create_peer_success_spec hq
  have h4' : q.assigned_ip = mkPeerIp (cursorView db p.instance_id + 1) := h4
  refine ⟨h4', ?_⟩
  obtain ⟨os, hnodup, hbound, heq⟩ := hI.octets_ok p.instance_id
  have hpf : p ∈ db.peers.filter (fun r => r.instance_id == p.instance_id) :=
    List.mem_filter.mpr ⟨hpmem, by simp⟩
  have hipmem : p.assigned_ip ∈ peerIpsOf db p.instance_id :=
    List.mem_map_of_mem (fun r => r.assigned_ip) hpf
  rw [heq] at hipmem
  obtain ⟨k, hk, hkeq⟩ := List.mem_map.mp hipmem
  have hkb := hbound k hk
  intro hcontra
  rw [h4', ← hkeq] at hcontra
  have := mkPeerIp_injective _ _ hcontra
  omega

/-- C6 witness: deleting the concrete peer and allocating again issues
`.4`, not the deleted `.3`. -/
theorem claim_C6_witness :
    findPeerOwned dbRP 1 1 = some peer1 ∧
    create_peer (delete_peer dbRP 1 1).1 1 peer1.instance_id "b" "phone"
      = ((create_peer (delete_peer dbRP 1 1).1 1 peer1.instance_id "b" "phone").1,
         Except.ok peer2) ∧
    (peer2.assigned_ip = mkPeerIp (cursorView dbRP peer1.instance_id + 1) ∧
     peer2.assigned_ip ≠ peer1.assigned_ip) :=
  ⟨rfl, rfl,
   (claim_C6 dbRP 1 1 peer1 reachable_dbRP rfl).2 1 "b" "phone"
     (create_peer (delete_peer dbRP 1 1).1 1 peer1.instance_id "b" "phone").1 peer2 rfl⟩

/-- C7: cross-tenant attempts — allocating on, listing peers of, or deleting a
machine owned by another account, and fetching the config of or deleting a
peer of such a machine — all fail with the 404 NotFound error (never a
403-style Forbidden) and mutate nothing. -/
theorem claim_C7 : ∀ (db : DB) (uidA : Nat), Reachable db →
    (∀ im ∈ db.instances, im.user_id ≠ uidA →
       (∀ n dt, create_peer db uidA im.id n dt = (db, .error instanceNotFound)) ∧
       list_peers db uidA im.id = .error instanceNotFound ∧
       (∀ tf, delete_instance db uidA im.id tf = (db, .error instanceNotFound))) ∧
    (∀ p ∈ db.peers, ∀ im ∈ db.instances, im.id = p.instance_id → im.user_id ≠ uidA →
       get_peer_config db uidA p.id = .error peerNotFound ∧
       delete_peer db uidA p.id = (db, .error peerNotFound)) ∧
    instanceNotFound.status_code = 404 ∧ peerNotFound.status_code = 404 := by
  intro db uidA hreach
  have hI := reachable_inv hreach
  refine ⟨?_, ?_, rfl, rfl⟩
  · intro im him hne
    have hnone : findInstanceOwned db im.id uidA = none := by
      apply List.find?_eq_none.mpr
      intro i hi
      simp only [Bool.and_eq_true, beq_iff_eq, not_and]
      intro hid hu
      have : i = im := nodup_key_unique hI.inst_nodup i hi im him hid
      subst this
      exact hne hu
    exact ⟨fun n dt => create_peer_no_instance hnone,
           by simp [list_peers, hnone],
           fun tf => delete_instance_none hnone⟩
  · intro p hp im him himid hne
    have hinner : db.instances.find?
        (fun i => i.id == p.instance_id && i.user_id == uidA) = none := by
      apply List.find?_eq_none.mpr
      intro i hi
      simp only [Bool.and_eq_true, beq_iff_eq, not_and]
      intro hid hu
      have : i = im := nodup_key_unique hI.inst_nodup i hi im him (by rw [hid, himid])
      subst this
      exact hne hu
    have hnone : findPeerOwned db p.id uidA = none := by
      apply List.find?_eq_none.mpr
      intro q hq
      simp only [Bool.and_eq_true, beq_iff_eq, not_and]
      intro hqid
      have : q = p := nodup_key_unique hI.peer_nodup q hq p hp hqid
      subst this
      rw [hinner]
      simp
    exact ⟨by simp [get_peer_config, hnone], delete_peer_none hnone⟩

/-- C7 witness: account 2 cannot touch account 1's concrete machine or peer;
every attempt 404s and leaves the database unchanged. -/
theorem claim_C7_witness :
    ((create_peer dbRP 2 instR.id "x" "phone" = (dbRP, .error instanceNotFound)) ∧
     list_peers dbRP 2 instR.id = .error instanceNotFound ∧
     delete_instance dbRP 2 instR.id true = (dbRP, .error instanceNotFound)) ∧
    (get_peer_config dbRP 2 peer1.id = .error peerNotFound ∧
     delete_peer dbRP 2 peer1.id = (dbRP, .error peerNotFound)) ∧
    instanceNotFound.status_code = 404 ∧ peerNotFound.status_code = 404 := by
  have h := claim_C7 dbRP 2 reachable_dbRP
  have h1 := h.1 instR (by decide) (by decide)
  have h2 := h.2.1 peer1 (by decide) instR (by decide) rfl (by decide)
  exact ⟨⟨h1.1 "x" "phone", h1.2.1, h1.2.2 true⟩, h2, h.2.2⟩

/-- C8: in every reachable state each account owns at most
`MAX_INSTANCES_PER_USER` machines (default 3), and a machine-creation request
by an account already at the limit is rejected with the limit error and
creates nothing. -/
theorem claim_C8 :
    (∀ db : DB, Reachable db → ∀ uid, countInstancesOf db uid ≤ MAX_INSTANCES_PER_USER) ∧
    (∀ (db : DB) (uid : Nat) (r t : String),
       MAX_INSTANCES_PER_USER ≤ countInstancesOf db uid →
       create_instance db uid r t = (db, .error maxInstancesError)) ∧
    MAX_INSTANCES_PER_USER = 3 := by
  refine ⟨?_, ?_, rfl⟩
  · intro db h uid
    exact (reachable_inv h).user_limit uid
  · intro db uid r t h
    exact create_instance_reject h

/-- The reachable database in which account 1 owns three machines. -/
def db3 : DB := applyEvent (applyEvent (applyEvent db0 ev1) ev1) ev1

theorem reachable_db3 : Reachable db3 :=
  Reachable.step ev1 (Reachable.step ev1 (Reachable.step ev1 Reachable.init))

/-- C8 witness: with three concrete machines the limit holds with equality and
the fourth creation attempt is rejected without side effects. -/
theorem claim_C8_witness :
    countInstancesOf db3 1 ≤ MAX_INSTANCES_PER_USER ∧
    MAX_INSTANCES_PER_USER ≤ countInstancesOf db3 1 ∧
    create_instance db3 1 "us-east-1" "t2.micro" = (db3, .error maxInstancesError) :=
  ⟨claim_C8.1 db3 reachable_db3 1, by decide,
   claim_C8.2.1 db3 1 "us-east-1" "t2.micro" (by decide)⟩

/-- C9: every reachable machine state is `launching`, `running`, or `failed`,
and the only state transitions any event can cause are `launching → running`
and `launching → failed`; in particular nothing ever moves a machine out of
`failed`. -/
theorem claim_C9 :
    (∀ db : DB, Reachable db → ∀ i ∈ db.instances,
       i.state = "launching" ∨ i.state = "running" ∨ i.state = "failed") ∧
    (∀ (db : DB), Reachable db → ∀ (e : Event), ∀ i ∈ db.instances,
       ∀ i' ∈ (applyEvent db e).instances, i'.id = i.id → i'.state ≠ i.state →
       i.state = "launching" ∧ (i'.state = "running" ∨ i'.state = "failed")) := by
  constructor
  · intro db h i hi
    exact (reachable_inv h).state_wf i hi
  · intro db hreach e i hi i' hi' hid hne
    have hI := reachable_inv hreach
    cases e with
    | createInstance uid r t =>
      exfalso
      by_cases hc : MAX_INSTANCES_PER_USER ≤ countInstancesOf db uid
      · have hdb : applyEvent db (Event.createInstance uid r t) = db := by
          show (create_instance db uid r t).1 = db
          rw [create_instance_reject hc]
        rw [hdb] at hi'
        exact hne (by rw [nodup_key_unique hI.inst_nodup i' hi' i hi hid])
      · have hins : (applyEvent db (Event.createInstance uid r t)).instances
            = db.instances ++ [newInst db uid r t] := by
          show (create_instance db uid r t).1.instances = _
          rw [create_instance_accept (Nat.not_le.mp hc)]
        rw [hins] at hi'
        simp only [List.mem_append, List.mem_singleton] at hi'
        rcases hi' with hi' | hi'
        · exact hne (by rw [nodup_key_unique hI.inst_nodup i' hi' i hi hid])
        · have hfresh := hI.inst_fresh i hi
          subst hi'
          simp only [newInst] at hid
          omega
    | createPeer uid j n dt =>
      exfalso
      have hsame : (applyEvent db (Event.createPeer uid j n dt)).instances
          = db.instances := (create_peer_frame db uid j n dt).1
      rw [hsame] at hi'
      exact hne (by rw [nodup_key_unique hI.inst_nodup i' hi' i hi hid])
    | deletePeer uid pid =>
      exfalso
      have hsame : (applyEvent db (Event.deletePeer uid pid)).instances
          = db.instances := by
        show (delete_peer db uid pid).1.instances = db.instances
        unfold delete_peer
        split <;> rfl
      rw [hsame] at hi'
      exact hne (by rw [nodup_key_unique hI.inst_nodup i' hi' i hi hid])
    | deleteInstance uid j tf =>
      exfalso
      have hsub : i' ∈ db.instances := by
        cases hfind : findInstanceOwned db j uid with
        | none =>
          have hdb : applyEvent db (Event.deleteInstance uid j tf) = db := by
            show (delete_instance db uid j tf).1 = db
            rw [delete_instance_none hfind]
          rwa [hdb] at hi'
        | some inst =>
          have hins : (applyEvent db (Event.deleteInstance uid j tf)).instances
              = db.instances.filter (fun k => k.id != inst.id) := by
            show (delete_instance db uid j tf).1.instances = _
            rw [delete_instance_some hfind]
          rw [hins] at hi'
          exact List.mem_of_mem_filter hi'
      exact hne (by rw [nodup_key_unique hI.inst_nodup i' hsub i hi hid])
    | launchFail j =>
      by_cases hpend : db.pending_launches.contains j
      · cases hfind : findInstanceById db j with
        | none =>
          exfalso
          have hsame : (applyEvent db (Event.launchFail j)).instances = db.instances := by
            show (launch_fail db j).instances = db.instances
            unfold launch_fail
            rw [if_pos hpend, hfind]
          rw [hsame] at hi'
          exact hne (by rw [nodup_key_unique hI.inst_nodup i' hi' i hi hid])
        | some inst =>
          have hmap : (applyEvent db (Event.launchFail j)).instances
              = db.instances.map
                  (fun k => if k.id == j then { k with state := "failed" } else k) := by
            show (launch_fail db j).instances = _
            unfold launch_fail
            rw [if_pos hpend, hfind]
          rw [hmap] at hi'
          obtain ⟨i2, hi2, hfi⟩ := List.mem_map.mp hi'
          have hid2 : i'.id = i2.id := by rw [← hfi]; split <;> rfl
          have heqi : i2 = i :=
            nodup_key_unique hI.inst_nodup i2 hi2 i hi (by rw [← hid2, hid])
          subst heqi
          by_cases hij : i2.id = j
          · refine ⟨hI.pending_launching i2 hi2 (by rw [hij]; simpa using hpend), ?_⟩
            right
            rw [← hfi, if_pos (by simpa using hij)]
          · exfalso
            rw [← hfi, if_neg (by simpa using hij)] at hne
            exact hne rfl
      · exfalso
        have hsame : applyEvent db (Event.launchFail j) = db := by
          show launch_fail db j = db
          unfold launch_fail
          rw [if_neg hpend]
        rw [hsame] at hi'
        exact hne (by rw [nodup_key_unique hI.inst_nodup i' hi' i hi hid])
    | launchSuccess j aid pip =>
      by_cases hpend : db.pending_launches.contains j
      · cases hfind : findInstanceById db j with
        | none =>
          exfalso
          have hsame : (applyEvent db (Event.launchSuccess j aid pip)).instances
              = db.instances := by
            show (launch_success db j aid pip).instances = db.instances
            unfold launch_success
            rw [if_pos hpend, hfind]
          rw [hsame] at hi'
          exact hne (by rw [nodup_key_unique hI.inst_nodup i' hi' i hi hid])
        | some inst =>
          have hmap : (applyEvent db (Event.launchSuccess j aid pip)).instances
              = db.instances.map
                  (fun k => if k.id == j then
                    { k with aws_instance_id := some aid, public_ip := some pip,
                             state := "running" }
                  else k) := by
            show (launch_success db j aid pip).instances = _
            rw [launch_success_eq hpend hfind]
          rw [hmap] at hi'
          obtain ⟨i2, hi2, hfi⟩ := List.mem_map.mp hi'
          have hid2 : i'.id = i2.id := by rw [← hfi]; split <;> rfl
          have heqi : i2 = i :=
            nodup_key_unique hI.inst_nodup i2 hi2 i hi (by rw [← hid2, hid])
          subst heqi
          by_cases hij : i2.id = j
          · refine ⟨hI.pending_launching i2 hi2 (by rw [hij]; simpa using hpend), ?_⟩
            left
            rw [← hfi, if_pos (by simpa using hij)]
          · exfalso
            rw [← hfi, if_neg (by simpa using hij)] at hne
            exact hne rfl
      · exfalso
        have hsame : applyEvent db (Event.launchSuccess j aid pip) = db := by
          show launch_success db j aid pip = db
          unfold launch_success
          rw [if_neg hpend]
        rw [hsame] at hi'
        exact hne (by rw [nodup_key_unique hI.inst_nodup i' hi' i hi hid])

/-- C9 witness: the concrete launch-success transition moves machine 1 from
`launching` to `running`, matching the allowed transitions. -/
theorem claim_C9_witness :
    (instL.state = "launching" ∨ instL.state = "running" ∨ instL.state = "failed") ∧
    (instL.state = "launching" ∧ (instR.state = "running" ∨ instR.state = "failed")) :=
  ⟨claim_C9.1 dbL reachable_dbL instL (by decide),
   claim_C9.2 dbL reachable_dbL ev2 instL (by decide) instR (by decide) rfl (by decide)⟩

/-- C10: the per-account machine limit counts machines in every lifecycle
state: an account whose machines are all `failed` is still rejected at the
limit, and no machine is created. -/
theorem claim_C10 : ∀ (db : DB) (uid : Nat) (r t : String),
    (∀ i ∈ db.instances, i.user_id = uid → i.state = "failed") →
    MAX_INSTANCES_PER_USER ≤ countInstancesOf db uid →
    create_instance db uid r t = (db, .error maxInstancesError) := by
  intro db uid r t _hfailed hcnt
  exact create_instance_reject hcnt

/-- The reachable database in which account 1 owns three failed machines. -/
def dbF : DB :=
  applyEvents db0 [ev1, .launchFail 1, ev1, .launchFail 2, ev1, .launchFail 3]

/-- C10 witness: three concrete machines, all `failed`, still exhaust the
limit and the next creation attempt is rejected. -/
theorem claim_C10_witness :
    (∀ i ∈ dbF.instances, i.user_id = 1 → i.state = "failed") ∧
    MAX_INSTANCES_PER_USER ≤ countInstancesOf dbF 1 ∧
    create_instance dbF 1 "us-east-1" "t2.micro" = (dbF, .error maxInstancesError) :=
  ⟨by decide, by decide,
   claim_C10 dbF 1 "us-east-1" "t2.micro" (by decide) (by decide)⟩

end TunnelPlatform
